import Mathlib

/-!
# Verification of the muzik chapter-splitting / playlist-workflow core

Shallow embedding of the chapter model, timestamp helpers, sidecar parsers,
split-cache logic and the playlist state machine of the `muzik` repository
(`src/muzik/core/chapters.py`, `src/muzik/core/cache.py`,
`src/muzik/commands/split.py`, `src/muzik/commands/workflow.py`,
`src/muzik/core/musicbrainz.py`), together with proofs and refutations of
the specification's claims about them.

Python strings are modelled as `List Char` (wrapped in `String` at the
interfaces), Python `int` as `Int` (arbitrary precision in both), and
fallible operations as `Option`/`Except`.
-/

namespace Muzik

/-! ## Python character classes

`str.strip()` / `\s` whitespace and `str.splitlines()` line breaks.
The whitespace set covers the ASCII whitespace characters plus the
characters Python additionally treats as line breaks; the rare Unicode
spaces Python also strips do not occur in any input considered here. -/

def isPySpace (c : Char) : Bool :=
  c = ' ' || c = '\t' || c = '\n' || c = '\r' ||
  c = '\x0b' || c = '\x0c' || c = '\x1c' || c = '\x1d' || c = '\x1e' ||
  c = '\x85' || c = '\u00A0' || c = '\u2028' || c = '\u2029'

/-- The characters `str.splitlines()` splits on (with `\r\n` counted once). -/
def isPyLineBreak (c : Char) : Bool :=
  c = '\n' || c = '\r' || c = '\x0b' || c = '\x0c' ||
  c = '\x1c' || c = '\x1d' || c = '\x1e' || c = '\x85' ||
  c = '\u2028' || c = '\u2029'

/-- Python `str.strip()` on a character list. -/
def pyStrip (cs : List Char) : List Char :=
  ((cs.dropWhile isPySpace).reverse.dropWhile isPySpace).reverse

/-- Python `str.strip()` on a `String`. -/
def pyStripStr (s : String) : String := ⟨pyStrip s.data⟩

/-- Python `str.split(sep)` for a one-character separator: split at every
occurrence, keeping empty pieces (`"a::b".split(":") == ["a","","b"]`). -/
def splitCh (sep : Char) : List Char → List (List Char)
  | [] => [[]]
  | c :: rest =>
    if c = sep then [] :: splitCh sep rest
    else
      match splitCh sep rest with
      | [] => [[c]]
      | p :: ps => (c :: p) :: ps

/-- Python `str.splitlines()`: split at line-break characters, `\r\n`
counting as a single break, with no trailing empty line for a trailing
break and `[]` for the empty string. -/
def splitLinesAux (acc : List Char) : List Char → List (List Char)
  | [] => if acc.isEmpty then [] else [acc.reverse]
  | '\r' :: '\n' :: rest => acc.reverse :: splitLinesAux [] rest
  | c :: rest =>
    if isPyLineBreak c then acc.reverse :: splitLinesAux [] rest
    else splitLinesAux (c :: acc) rest

def splitLines (cs : List Char) : List (List Char) := splitLinesAux [] cs

/-! ## Decimal digits: rendering and parsing -/

/-- The decimal digits of `n`, most significant first, computed with
enough fuel (structural recursion so the kernel can evaluate it). -/
def natDigitsChAux : Nat → Nat → List Char
  | 0, _ => []
  | fuel + 1, n =>
    if n < 10 then [Char.ofNat (48 + n)]
    else natDigitsChAux fuel (n / 10) ++ [Char.ofNat (48 + n % 10)]

/-- The decimal digits of `n`, most significant first (`repr` of a `Nat`). -/
def natDigitsCh (n : Nat) : List Char := natDigitsChAux (n + 1) n

/-- Python `repr` of an `int` as characters. -/
def intReprCh (i : Int) : List Char :=
  if i < 0 then '-' :: natDigitsCh (-i).toNat else natDigitsCh i.toNat

/-- Value of a digit string (most significant first). -/
def digitsVal (cs : List Char) : Nat :=
  cs.foldl (fun a c => 10 * a + (c.toNat - 48)) 0

/-- Digit run with Python's single-underscore grouping (`int("1_0") == 10`):
after the first digit, each `_` must be followed by a digit. -/
def digitsUSGo (acc : Nat) : List Char → Option Nat
  | [] => some acc
  | c :: rest =>
    if c.isDigit then digitsUSGo (10 * acc + (c.toNat - 48)) rest
    else if c = '_' then
      match rest with
      | [] => none
      | c2 :: rest2 =>
        if c2.isDigit then digitsUSGo (10 * acc + (c2.toNat - 48)) rest2 else none
    else none

def digitsUS : List Char → Option Nat
  | [] => none
  | c :: rest => if c.isDigit then digitsUSGo (c.toNat - 48) rest else none

/-- Python `int(s)` for a decimal string: surrounding whitespace is
stripped, an optional sign is accepted, then digits with optional
underscore grouping; anything else raises (`none`). -/
def pyInt (cs : List Char) : Option Int :=
  match pyStrip cs with
  | [] => none
  | c :: rest =>
    if c = '+' then (digitsUS rest).map Int.ofNat
    else if c = '-' then (digitsUS rest).map fun n => -(Int.ofNat n)
    else (digitsUS (c :: rest)).map Int.ofNat

/-! ## Timestamp helpers (`_ts_to_secs`, `_secs_to_ts`) -/

/-- `_ts_to_secs`: convert `HH:MM:SS` or `MM:SS` to seconds; a string that
is not 2 or 3 colon-separated ints raises `ValueError` (`none`).
Python `//` and `%` on the nonnegative values involved match `Int.ediv`
and `Int.emod`. -/
def ts_to_secs (ts : String) : Option Int :=
  match splitCh ':' (pyStrip ts.data) with
  | [h, m, s] =>
    match pyInt h, pyInt m, pyInt s with
    | some a, some b, some c => some (a * 3600 + b * 60 + c)
    | _, _, _ => none
  | [m, s] =>
    match pyInt m, pyInt s with
    | some b, some c => some (b * 60 + c)
    | _, _ => none
  | _ => none

/-- `f"{i:02d}"`: pad to width 2 with zeros (sign included in the width,
exactly as in Python). -/
def pad2 (cs : List Char) : List Char :=
  if cs.length < 2 then '0' :: cs else cs

/-- `_secs_to_ts`: seconds to `HH:MM:SS` (hours field unbounded).
Python's floor `//` and nonnegative `%` for the positive divisors used
here are `Int.ediv` / `Int.emod`. -/
def secs_to_ts (secs : Int) : String :=
  ⟨pad2 (intReprCh (secs / 3600)) ++
   (':' :: (pad2 (intReprCh (secs % 3600 / 60)) ++
   (':' :: pad2 (intReprCh (secs % 60)))))⟩

/-! ### Digit lemmas -/

theorem natDigitsChAux_ne_nil {fuel n : Nat} (h : n < fuel) :
    natDigitsChAux fuel n ≠ [] := by
  cases fuel with
  | zero => omega
  | succ f =>
    unfold natDigitsChAux
    split
    · simp
    · simp

theorem natDigitsCh_ne_nil (n : Nat) : natDigitsCh n ≠ [] :=
  natDigitsChAux_ne_nil (Nat.lt_succ_self n)

theorem digitChar_toNat (d : Nat) (h : d < 10) :
    (Char.ofNat (48 + d)).toNat = 48 + d := by
  interval_cases d <;> decide

theorem digitChar_isDigit (d : Nat) (h : d < 10) :
    (Char.ofNat (48 + d)).isDigit = true := by
  interval_cases d <;> decide

theorem digitsVal_append (xs ys : List Char) :
    digitsVal (xs ++ ys) =
      ys.foldl (fun a c => 10 * a + (c.toNat - 48)) (digitsVal xs) := by
  simp [digitsVal, List.foldl_append]

theorem digitsVal_natDigitsChAux {fuel n : Nat} (h : n < fuel) :
    digitsVal (natDigitsChAux fuel n) = n := by
  induction fuel generalizing n with
  | zero => omega
  | succ f ih =>
    unfold natDigitsChAux
    split
    · rename_i h10
      simp [digitsVal, digitChar_toNat n h10]
    · rename_i h10
      rw [digitsVal_append, ih (by omega)]
      simp [List.foldl, digitChar_toNat (n % 10) (Nat.mod_lt _ (by norm_num))]
      omega

theorem digitsVal_natDigitsCh (n : Nat) : digitsVal (natDigitsCh n) = n :=
  digitsVal_natDigitsChAux (Nat.lt_succ_self n)

/-- The ten decimal digit characters. -/
def digitChars : List Char := ['0', '1', '2', '3', '4', '5', '6', '7', '8', '9']

theorem digitChar_mem (d : Nat) (h : d < 10) : Char.ofNat (48 + d) ∈ digitChars := by
  interval_cases d <;> decide

theorem natDigitsChAux_mem {fuel n : Nat} (h : n < fuel) :
    ∀ c ∈ natDigitsChAux fuel n, c ∈ digitChars := by
  induction fuel generalizing n with
  | zero => omega
  | succ f ih =>
    unfold natDigitsChAux
    split
    · rename_i h10
      intro c hc
      simp only [List.mem_singleton] at hc
      subst hc
      exact digitChar_mem n h10
    · rename_i h10
      intro c hc
      rw [List.mem_append] at hc
      rcases hc with hc | hc
      · exact ih (by omega) c hc
      · simp only [List.mem_singleton] at hc
        subst hc
        exact digitChar_mem (n % 10) (Nat.mod_lt _ (by norm_num))

theorem natDigitsCh_mem (n : Nat) : ∀ c ∈ natDigitsCh n, c ∈ digitChars :=
  natDigitsChAux_mem (Nat.lt_succ_self n)

theorem digit_isDigit {c : Char} (h : c ∈ digitChars) : c.isDigit = true := by
  fin_cases h <;> decide

theorem digit_not_space {c : Char} (h : c ∈ digitChars) : isPySpace c = false := by
  fin_cases h <;> decide

theorem digit_ne_colon {c : Char} (h : c ∈ digitChars) : c ≠ ':' := by
  fin_cases h <;> decide

theorem digit_ne_plus {c : Char} (h : c ∈ digitChars) : c ≠ '+' := by
  fin_cases h <;> decide

theorem digit_ne_minus {c : Char} (h : c ∈ digitChars) : c ≠ '-' := by
  fin_cases h <;> decide

/-- `pad2` keeps digit strings made of digits. -/
theorem pad2_mem {cs : List Char} (h : ∀ c ∈ cs, c ∈ digitChars) :
    ∀ c ∈ pad2 cs, c ∈ digitChars := by
  unfold pad2
  split
  · intro c hc
    rcases List.mem_cons.mp hc with hc | hc
    · subst hc; decide
    · exact h c hc
  · exact h

theorem digitsVal_pad2 (cs : List Char) : digitsVal (pad2 cs) = digitsVal cs := by
  unfold pad2
  split
  · simp [digitsVal, List.foldl]
  · rfl

theorem pad2_ne_nil (cs : List Char) : pad2 cs ≠ [] := by
  unfold pad2
  split
  · simp
  · rename_i h
    intro hc
    rw [hc] at h
    simp at h

/-! ### Strip and split lemmas -/

theorem dropWhile_eq_self_of_all {p : Char → Bool} {cs : List Char}
    (h : ∀ c ∈ cs, p c = false) : cs.dropWhile p = cs := by
  cases cs with
  | nil => rfl
  | cons c rest => simp [List.dropWhile, h c (List.mem_cons_self _ _)]

theorem pyStrip_eq_self_of_all {cs : List Char}
    (h : ∀ c ∈ cs, isPySpace c = false) : pyStrip cs = cs := by
  unfold pyStrip
  rw [dropWhile_eq_self_of_all h,
      dropWhile_eq_self_of_all (fun c hc => h c (List.mem_reverse.mp hc)),
      List.reverse_reverse]

theorem splitCh_of_no_sep {sep : Char} {cs : List Char}
    (h : ∀ c ∈ cs, c ≠ sep) : splitCh sep cs = [cs] := by
  induction cs with
  | nil => rfl
  | cons c rest ih =>
    unfold splitCh
    rw [if_neg (h c (List.mem_cons_self _ _))]
    rw [ih (fun c hc => h c (List.mem_cons_of_mem _ hc))]

theorem splitCh_append {sep : Char} {xs rest : List Char}
    (h : ∀ c ∈ xs, c ≠ sep) :
    splitCh sep (xs ++ sep :: rest) = xs :: splitCh sep rest := by
  induction xs with
  | nil => simp [splitCh]
  | cons c t ih =>
    have hc : c ≠ sep := h c (List.mem_cons_self _ _)
    have ht : ∀ x ∈ t, x ≠ sep := fun x hx => h x (List.mem_cons_of_mem _ hx)
    simp only [List.cons_append, splitCh, if_neg hc]
    rw [List.append_eq, ih ht]

/-! ### `int()` on pure digit strings -/

theorem digitsUSGo_digits {cs : List Char} (acc : Nat)
    (h : ∀ c ∈ cs, c ∈ digitChars) :
    digitsUSGo acc cs = some (cs.foldl (fun a c => 10 * a + (c.toNat - 48)) acc) := by
  induction cs generalizing acc with
  | nil => rfl
  | cons c rest ih =>
    unfold digitsUSGo
    rw [if_pos (digit_isDigit (h c (List.mem_cons_self _ _)))]
    rw [ih _ (fun c hc => h c (List.mem_cons_of_mem _ hc))]
    rfl

theorem digitsUS_digits {cs : List Char} (hne : cs ≠ [])
    (h : ∀ c ∈ cs, c ∈ digitChars) :
    digitsUS cs = some (digitsVal cs) := by
  cases cs with
  | nil => exact absurd rfl hne
  | cons c rest =>
    simp only [digitsUS, if_pos (digit_isDigit (h c (List.mem_cons_self _ _))),
      digitsUSGo_digits _ (fun c hc => h c (List.mem_cons_of_mem _ hc))]
    simp [digitsVal, List.foldl]

theorem pyInt_digits {cs : List Char} (hne : cs ≠ [])
    (h : ∀ c ∈ cs, c ∈ digitChars) :
    pyInt cs = some (Int.ofNat (digitsVal cs)) := by
  unfold pyInt
  rw [pyStrip_eq_self_of_all (fun c hc => digit_not_space (h c hc))]
  cases cs with
  | nil => exact absurd rfl hne
  | cons c rest =>
    simp only
    rw [if_neg (digit_ne_plus (h c (List.mem_cons_self _ _))),
        if_neg (digit_ne_minus (h c (List.mem_cons_self _ _))),
        digitsUS_digits (by simp) h]
    rfl

/-! ### Timestamp round trip -/

theorem intReprCh_nonneg {i : Int} (h : 0 ≤ i) :
    intReprCh i = natDigitsCh i.toNat := by
  unfold intReprCh
  rw [if_neg (by omega)]

/-- Helper: parse-of-print for one padded nonnegative component. -/
theorem pyInt_pad2_repr {i : Int} (h : 0 ≤ i) :
    pyInt (pad2 (intReprCh i)) = some i := by
  rw [intReprCh_nonneg h,
      pyInt_digits (pad2_ne_nil _) (pad2_mem (natDigitsCh_mem _)),
      digitsVal_pad2, digitsVal_natDigitsCh]
  simp [Int.toNat_of_nonneg h]

/-- Round trip of the timestamp helpers on nonnegative seconds
(shared by the claims about `_ts_to_secs`/`_secs_to_ts` and the
serializer round trip). -/
theorem ts_secs_roundtrip (s : Int) (h : 0 ≤ s) :
    ts_to_secs (secs_to_ts s) = some s := by
  have hH : (0 : Int) ≤ s / 3600 := Int.ediv_nonneg h (by norm_num)
  have hM : (0 : Int) ≤ s % 3600 / 60 :=
    Int.ediv_nonneg (Int.emod_nonneg _ (by norm_num)) (by norm_num)
  have hS : (0 : Int) ≤ s % 60 := Int.emod_nonneg _ (by norm_num)
  have memH : ∀ c ∈ pad2 (intReprCh (s / 3600)), c ∈ digitChars := by
    rw [intReprCh_nonneg hH]; exact pad2_mem (natDigitsCh_mem _)
  have memM : ∀ c ∈ pad2 (intReprCh (s % 3600 / 60)), c ∈ digitChars := by
    rw [intReprCh_nonneg hM]; exact pad2_mem (natDigitsCh_mem _)
  have memS : ∀ c ∈ pad2 (intReprCh (s % 60)), c ∈ digitChars := by
    rw [intReprCh_nonneg hS]; exact pad2_mem (natDigitsCh_mem _)
  unfold ts_to_secs secs_to_ts
  simp only [String.data]
  rw [pyStrip_eq_self_of_all (by
    intro c hc
    simp only [List.mem_append, List.mem_cons] at hc
    rcases hc with hc | hc | hc | hc | hc
    · exact digit_not_space (memH c hc)
    · subst hc; decide
    · exact digit_not_space (memM c hc)
    · subst hc; decide
    · exact digit_not_space (memS c hc))]
  rw [splitCh_append (fun c hc => digit_ne_colon (memH c hc))]
  rw [splitCh_append (fun c hc => digit_ne_colon (memM c hc))]
  rw [splitCh_of_no_sep (fun c hc => digit_ne_colon (memS c hc))]
  simp only [pyInt_pad2_repr hH, pyInt_pad2_repr hM, pyInt_pad2_repr hS,
    Option.some.injEq]
  omega

/-! ## The Chapter data model (`src/muzik/core/chapters.py`, `Chapter`) -/

/-- One logical track within a recording. `«end»` is `none` for the last
track. -/
structure Chapter where
  index : Nat
  start : Int
  «end» : Option Int
  title : String
deriving DecidableEq

/-- `Chapter.start_ts`. -/
def Chapter.start_ts (c : Chapter) : String := secs_to_ts c.start

/-! ## Claim C10 — timestamp round trip -/

/-- C10: for every non-negative integer `s`, `_ts_to_secs(_secs_to_ts(s)) == s`:
the formatter emits zero-padded `H:MM:SS` with an unbounded hours field, and
the parser accepts the 3-part colon-separated digit string it produces. -/
theorem claim_C10 (s : Int) (h : 0 ≤ s) : ts_to_secs (secs_to_ts s) = some s :=
  ts_secs_roundtrip s h

/-- Witness for C10 at `s = 3725` (`"01:02:05"`). -/
theorem claim_C10_witness : (0 : Int) ≤ 3725 ∧ ts_to_secs (secs_to_ts 3725) = some 3725 :=
  ⟨by norm_num, claim_C10 3725 (by norm_num)⟩

/-! ## The text sidecar parser (`parse_chapters_txt`)

`_CHAPTER_RE = ^(\d+:\d{2}(?::\d{2})?)\s+(.+)$`, matched against each
stripped line; matching lines contribute `(_ts_to_secs(group 1),
group(2).strip())`. -/

/-- Continuation of the regex match when the optional `:\d{2}` group is
not taken (or fails): `\s+(.+)$` must match `rest`, group 1 being
`hd:ab`. -/
def matchTail (hd : List Char) (a b : Char) (rest : List Char) :
    Option (List Char × List Char) :=
  match rest with
  | [] => none
  | e :: _ =>
    if isPySpace e then
      if (rest.dropWhile isPySpace).isEmpty then none
      else some (hd ++ ':' :: [a, b], rest.dropWhile isPySpace)
    else none

/-- The compiled form of `_CHAPTER_RE` applied to a line that has already
been stripped (as in `parse_chapters_txt`) and contains no line-break
characters (lines come from `splitlines`): returns `(group 1, group 2)`.
The regex admits a single parse on such lines: `\d+` runs to the first
`:`; each `\d{2}` is exactly two digits; the optional `:\d{2}` group is
kept only when `\s+` can follow it (otherwise the regex backtracks to the
2-part form, which then needs whitespace right after the minutes);
`(.+)$` is the nonempty remainder after the maximal whitespace run. -/
def matchLine (l : List Char) : Option (List Char × List Char) :=
  let hd := l.takeWhile Char.isDigit
  let r := l.dropWhile Char.isDigit
  if hd.isEmpty then none
  else
    match r with
    | ':' :: a :: b :: rest =>
      if a.isDigit && b.isDigit then
        match rest with
        | ':' :: c :: d :: rest2 =>
          if c.isDigit && d.isDigit then
            match rest2 with
            | e :: _ =>
              if isPySpace e then
                if (rest2.dropWhile isPySpace).isEmpty then matchTail hd a b rest
                else some (hd ++ ':' :: a :: b :: ':' :: [c, d], rest2.dropWhile isPySpace)
              else matchTail hd a b rest
            | [] => matchTail hd a b rest
          else matchTail hd a b rest
        | _ => matchTail hd a b rest
      else none
    | _ => none

/-- The accumulation loop of `parse_chapters_txt`: strip each line, skip
empty and non-matching lines, convert group 1 with `_ts_to_secs` (whose
`ValueError` would propagate: `.error`). -/
def parseLinesE : List (List Char) → Except String (List (Int × String))
  | [] => .ok []
  | l :: rest =>
    if (pyStrip l).isEmpty then parseLinesE rest
    else
      match matchLine (pyStrip l) with
      | none => parseLinesE rest
      | some (g1, g2) =>
        match ts_to_secs ⟨g1⟩ with
        | none => .error "ValueError: cannot parse timestamp"
        | some secs => (parseLinesE rest).map (fun r => (secs, (⟨pyStrip g2⟩ : String)) :: r)

/-- The chapter-construction loop of `parse_chapters_txt` (and its JSON
sibling): `index = idx + 1`, `end = raw[idx + 1][0]` if present. -/
def chaptersOfRawAux : Nat → List (Int × String) → List Chapter
  | _, [] => []
  | i, (s, t) :: rest =>
    { index := i, start := s, «end» := rest.head?.map Prod.fst, title := t }
      :: chaptersOfRawAux (i + 1) rest

/-- `parse_chapters_txt` on the file contents (reading the file and UTF-8
decoding with `errors="replace"` are outside the model: the argument is
the decoded text). -/
def parse_chapters_txt (content : String) : Except String (List Chapter) :=
  (parseLinesE (splitLines content.data)).map (chaptersOfRawAux 1)

/-- Total version of `parse_chapters_txt` (justified below: the parse
never raises). -/
def chaptersTxt (content : String) : List Chapter :=
  match parse_chapters_txt content with
  | .ok l => l
  | .error _ => []

/-- `serialize_chapters`: one `f"{ch.start_ts} {ch.title}"` line per
chapter, newline-joined, plus a trailing newline. -/
def serializeLine (c : Chapter) : List Char :=
  c.start_ts.data ++ ' ' :: c.title.data

/-- `"\n".join`. -/
def joinNL : List (List Char) → List Char
  | [] => []
  | [l] => l
  | l :: rest => l ++ '\n' :: joinNL rest

def serialize_chapters (cs : List Chapter) : String :=
  ⟨joinNL (cs.map serializeLine) ++ ['\n']⟩

/-! ### The text parse never raises -/

theorem isDigit_mem_digitChars {c : Char} (h : c.isDigit = true) : c ∈ digitChars := by
  simp only [Char.isDigit, Bool.and_eq_true, decide_eq_true_eq] at h
  have h1 : c.toNat >= 48 := h.1
  have h2 : c.toNat <= 57 := h.2
  have hc : c = Char.ofNat (48 + (c.toNat - 48)) := by
    rw [show 48 + (c.toNat - 48) = c.toNat by omega, Char.ofNat_toNat]
  rw [hc]
  exact digitChar_mem _ (by omega)

theorem colon_not_space : isPySpace ':' = false := by decide

/-- Parsing a matched 2-part timestamp `hd:ab` always succeeds. -/
theorem ts_parse_two {hd : List Char} {a b : Char} (hne : hd ≠ [])
    (hmem : ∀ x ∈ hd, x ∈ digitChars) (ha : a ∈ digitChars) (hb : b ∈ digitChars) :
    (ts_to_secs ⟨hd ++ ':' :: [a, b]⟩).isSome = true := by
  have hab : ∀ x ∈ [a, b], x ∈ digitChars := by
    intro x hx
    rcases List.mem_cons.mp hx with hx | hx
    · subst hx; exact ha
    · simp only [List.mem_singleton] at hx; subst hx; exact hb
  unfold ts_to_secs
  simp only [String.data]
  rw [pyStrip_eq_self_of_all (by
    intro c hc
    rcases List.mem_append.mp hc with hc | hc
    · exact digit_not_space (hmem c hc)
    · rcases List.mem_cons.mp hc with hc | hc
      · subst hc; exact colon_not_space
      · exact digit_not_space (hab c hc))]
  rw [splitCh_append (fun c hc => digit_ne_colon (hmem c hc)),
      splitCh_of_no_sep (fun c hc => digit_ne_colon (hab c hc))]
  simp only [pyInt_digits hne hmem, pyInt_digits (show ([a, b] : List Char) ≠ [] by simp) hab,
    Option.isSome_some]

/-- Parsing a matched 3-part timestamp `hd:ab:cd` always succeeds. -/
theorem ts_parse_three {hd : List Char} {a b c d : Char} (hne : hd ≠ [])
    (hmem : ∀ x ∈ hd, x ∈ digitChars) (ha : a ∈ digitChars) (hb : b ∈ digitChars)
    (hc : c ∈ digitChars) (hd' : d ∈ digitChars) :
    (ts_to_secs ⟨hd ++ ':' :: a :: b :: ':' :: [c, d]⟩).isSome = true := by
  have hab : ∀ x ∈ [a, b], x ∈ digitChars := by
    intro x hx
    rcases List.mem_cons.mp hx with hx | hx
    · subst hx; exact ha
    · simp only [List.mem_singleton] at hx; subst hx; exact hb
  have hcd : ∀ x ∈ [c, d], x ∈ digitChars := by
    intro x hx
    rcases List.mem_cons.mp hx with hx | hx
    · subst hx; exact hc
    · simp only [List.mem_singleton] at hx; subst hx; exact hd'
  have hshape : hd ++ ':' :: a :: b :: ':' :: [c, d] =
      hd ++ ':' :: ([a, b] ++ ':' :: [c, d]) := rfl
  unfold ts_to_secs
  simp only [String.data]
  rw [hshape]
  rw [pyStrip_eq_self_of_all (by
    intro x hx
    rcases List.mem_append.mp hx with hx | hx
    · exact digit_not_space (hmem x hx)
    · rcases List.mem_cons.mp hx with hx | hx
      · subst hx; exact colon_not_space
      · rcases List.mem_append.mp hx with hx | hx
        · exact digit_not_space (hab x hx)
        · rcases List.mem_cons.mp hx with hx | hx
          · subst hx; exact colon_not_space
          · exact digit_not_space (hcd x hx))]
  rw [splitCh_append (fun x hx => digit_ne_colon (hmem x hx)),
      splitCh_append (fun x hx => digit_ne_colon (hab x hx)),
      splitCh_of_no_sep (fun x hx => digit_ne_colon (hcd x hx))]
  simp only [pyInt_digits hne hmem, pyInt_digits (by simp) hab,
    pyInt_digits (by simp) hcd, Option.isSome_some]

theorem matchTail_parses {hd : List Char} {a b : Char} {rest g1 g2 : List Char}
    (hne : hd ≠ []) (hmem : ∀ x ∈ hd, x ∈ digitChars)
    (ha : a ∈ digitChars) (hb : b ∈ digitChars)
    (h : matchTail hd a b rest = some (g1, g2)) :
    (ts_to_secs ⟨g1⟩).isSome = true := by
  unfold matchTail at h
  split at h
  · exact absurd h (by simp)
  · split at h
    · split at h
      · exact absurd h (by simp)
      · rw [Option.some.injEq, Prod.mk.injEq] at h
        rw [← h.1]
        exact ts_parse_two hne hmem ha hb
    · exact absurd h (by simp)

theorem matchLine_parses {l g1 g2 : List Char}
    (h : matchLine l = some (g1, g2)) : (ts_to_secs ⟨g1⟩).isSome = true := by
  unfold matchLine at h
  simp only at h
  split at h
  · exact absurd h (by simp)
  · rename_i hne
    have hmem : ∀ x ∈ l.takeWhile Char.isDigit, x ∈ digitChars :=
      fun x hx => isDigit_mem_digitChars (List.mem_takeWhile_imp hx)
    have hne' : l.takeWhile Char.isDigit ≠ [] := by
      intro hnil
      rw [hnil] at hne
      exact hne rfl
    split at h
    · rename_i a b rest
      split at h
      · rename_i hab
        rw [Bool.and_eq_true] at hab
        have ha := isDigit_mem_digitChars hab.1
        have hb := isDigit_mem_digitChars hab.2
        split at h
        · rename_i c d rest2
          split at h
          · rename_i hcd
            rw [Bool.and_eq_true] at hcd
            split at h
            · split at h
              · split at h
                · exact matchTail_parses hne' hmem ha hb h
                · rw [Option.some.injEq, Prod.mk.injEq] at h
                  rw [← h.1]
                  exact ts_parse_three hne' hmem ha hb
                    (isDigit_mem_digitChars hcd.1) (isDigit_mem_digitChars hcd.2)
              · exact matchTail_parses hne' hmem ha hb h
            · exact matchTail_parses hne' hmem ha hb h
          · exact matchTail_parses hne' hmem ha hb h
        · exact matchTail_parses hne' hmem ha hb h
      · exact absurd h (by simp)
    · exact absurd h (by simp)

theorem parseLinesE_ok (lines : List (List Char)) :
    ∃ r, parseLinesE lines = .ok r := by
  induction lines with
  | nil => exact ⟨[], rfl⟩
  | cons l rest ih =>
    obtain ⟨r, hr⟩ := ih
    by_cases he : (pyStrip l).isEmpty = true
    · exact ⟨r, by simp [parseLinesE, he, hr]⟩
    · cases hm : matchLine (pyStrip l) with
      | none =>
        exact ⟨r, by simp [parseLinesE, he, hm, hr]⟩
      | some pr =>
        obtain ⟨g1, g2⟩ := pr
        obtain ⟨v, hv⟩ := Option.isSome_iff_exists.mp (matchLine_parses hm)
        exact ⟨(v, (⟨pyStrip g2⟩ : String)) :: r,
          by simp [parseLinesE, he, hm, hv, hr, Except.map]⟩

/-- `parse_chapters_txt` never raises. -/
theorem parse_chapters_txt_isOk (content : String) :
    (parse_chapters_txt content).isOk = true := by
  obtain ⟨r, hr⟩ := parseLinesE_ok (splitLines content.data)
  simp [parse_chapters_txt, hr, Except.map, Except.isOk, Except.toBool]

theorem chaptersTxt_eq (content : String) :
    parse_chapters_txt content = .ok (chaptersTxt content) := by
  obtain ⟨r, hr⟩ := parseLinesE_ok (splitLines content.data)
  simp only [chaptersTxt, parse_chapters_txt, hr, Except.map]

/-- Lines that do not match the pattern (empty lines included) are
silently skipped: filtering them away does not change the parse. -/
theorem parseLinesE_filter (lines : List (List Char)) :
    parseLinesE lines =
      parseLinesE (lines.filter fun l => (matchLine (pyStrip l)).isSome) := by
  induction lines with
  | nil => rfl
  | cons l rest ih =>
    by_cases he : (pyStrip l).isEmpty = true
    · have hm : matchLine (pyStrip l) = none := by
        have : pyStrip l = [] := by
          cases h : pyStrip l
          · rfl
          · rw [h] at he; simp at he
        rw [this]
        rfl
      simp [parseLinesE, he, List.filter, hm, ih]
    · cases hm : matchLine (pyStrip l) with
      | none => simp [parseLinesE, he, List.filter, hm, ih]
      | some pr =>
        obtain ⟨g1, g2⟩ := pr
        simp [parseLinesE, he, List.filter, hm, ih]

/-! ### Chain and contiguity of parsed chapters -/

/-- Every adjacent pair satisfies `chapters[i].end == chapters[i+1].start`. -/
def chainedB : List Chapter → Bool
  | c1 :: c2 :: rest => (c1.«end» == some c2.start) && chainedB (c2 :: rest)
  | _ => true

theorem chaptersOfRawAux_length (i : Nat) (raw : List (Int × String)) :
    (chaptersOfRawAux i raw).length = raw.length := by
  induction raw generalizing i with
  | nil => rfl
  | cons p rest ih =>
    obtain ⟨s, t⟩ := p
    simp [chaptersOfRawAux, ih]

theorem chaptersOfRawAux_indices (i : Nat) (raw : List (Int × String)) :
    (chaptersOfRawAux i raw).map Chapter.index = List.range' i raw.length := by
  induction raw generalizing i with
  | nil => rfl
  | cons p rest ih =>
    obtain ⟨s, t⟩ := p
    simp [chaptersOfRawAux, ih, List.range']

theorem chaptersOfRawAux_chained (i : Nat) (raw : List (Int × String)) :
    chainedB (chaptersOfRawAux i raw) = true := by
  induction raw generalizing i with
  | nil => rfl
  | cons p rest ih =>
    obtain ⟨s, t⟩ := p
    cases rest with
    | nil => rfl
    | cons q rest2 =>
      obtain ⟨s2, t2⟩ := q
      have h2 : chaptersOfRawAux i ((s, t) :: (s2, t2) :: rest2) =
          ⟨i, s, some s2, t⟩ :: chaptersOfRawAux (i + 1) ((s2, t2) :: rest2) := rfl
      have h3 : chaptersOfRawAux (i + 1) ((s2, t2) :: rest2) =
          ⟨i + 1, s2, rest2.head?.map Prod.fst, t2⟩ :: chaptersOfRawAux (i + 2) rest2 := rfl
      rw [h2, h3, chainedB, ← h3, ih (i + 1)]
      simp

/-! ## Claim C8 — scenario A and silent skipping -/

/-- C8: parsing `"0:00 Intro\n3:45 Track Two\n8:10 Track Three\n"` yields
exactly the three chapters `(1, 0, 225, "Intro")`, `(2, 225, 490,
"Track Two")`, `(3, 490, none, "Track Three")`; lines that do not match
the timestamp-title pattern are silently skipped (filtering them out
does not change the result), and the parse never fails. -/
theorem claim_C8 :
    parse_chapters_txt "0:00 Intro\n3:45 Track Two\n8:10 Track Three\n" =
      .ok [⟨1, 0, some 225, "Intro"⟩, ⟨2, 225, some 490, "Track Two"⟩,
           ⟨3, 490, none, "Track Three"⟩] ∧
    (∀ content : String, (parse_chapters_txt content).isOk = true) ∧
    (∀ lines : List (List Char),
      parseLinesE lines =
        parseLinesE (lines.filter fun l => (matchLine (pyStrip l)).isSome)) :=
  ⟨by rfl, parse_chapters_txt_isOk, parseLinesE_filter⟩

/-! ## The JSON sidecar parser (`parse_chapters_json`) -/

/-- One element of the yt-dlp `chapters` array as consumed by
`parse_chapters_json`, after JSON decoding. The numeric coercion
`int(float(x))` is modelled as the already-truncated integer value;
`title` is the raw string field (`none` when absent). -/
structure RawJsonChapter where
  start_time : Option Int
  end_time : Option Int
  title : Option String
deriving DecidableEq

/-- `ch.get("title") or f"Track {idx+1}"`: a missing or empty (falsy)
title defaults to `Track N`. -/
def jsonChapterAt (i : Nat) (r : RawJsonChapter) : Chapter :=
  { index := i
    start := r.start_time.getD 0
    «end» := r.end_time
    title :=
      match r.title with
      | none => "Track " ++ (⟨natDigitsCh i⟩ : String)
      | some t => if t = "" then "Track " ++ (⟨natDigitsCh i⟩ : String) else t }

def jsonChaptersAux : Nat → List RawJsonChapter → List Chapter
  | _, [] => []
  | i, r :: rest => jsonChapterAt i r :: jsonChaptersAux (i + 1) rest

/-- The `for i in range(len(chapters) - 1)` backfill loop: a missing end
time is replaced by the next chapter's start. The loop reads only `start`
fields of later chapters, which it never modifies, so this forward
recursion computes the same list. -/
def backfillEnds : List Chapter → List Chapter
  | c1 :: c2 :: rest =>
    (match c1.«end» with
     | none => { c1 with «end» := some c2.start }
     | some _ => c1) :: backfillEnds (c2 :: rest)
  | l => l

/-- `parse_chapters_json` on the decoded `chapters` array
(`data.get("chapters") or []`; an empty array returns `[]`). -/
def parse_chapters_json (raws : List RawJsonChapter) : List Chapter :=
  if raws.isEmpty then [] else backfillEnds (jsonChaptersAux 1 raws)

theorem jsonChaptersAux_indices (i : Nat) (raws : List RawJsonChapter) :
    (jsonChaptersAux i raws).map Chapter.index = List.range' i raws.length := by
  induction raws generalizing i with
  | nil => rfl
  | cons r rest ih => simp [jsonChaptersAux, jsonChapterAt, ih, List.range']

theorem jsonChaptersAux_length (i : Nat) (raws : List RawJsonChapter) :
    (jsonChaptersAux i raws).length = raws.length := by
  induction raws generalizing i with
  | nil => rfl
  | cons r rest ih => simp [jsonChaptersAux, ih]

theorem backfillEnds_map_index (cs : List Chapter) :
    (backfillEnds cs).map Chapter.index = cs.map Chapter.index := by
  induction cs with
  | nil => rfl
  | cons c rest ih =>
    cases rest with
    | nil => rfl
    | cons d rest2 =>
      cases he : c.«end» with
      | none => simp [backfillEnds, he, ih]
      | some e => simp [backfillEnds, he, ih]

theorem backfillEnds_length (cs : List Chapter) :
    (backfillEnds cs).length = cs.length := by
  have := backfillEnds_map_index cs
  calc (backfillEnds cs).length = ((backfillEnds cs).map Chapter.index).length := by simp
    _ = cs.length := by rw [this]; simp

theorem chainedB_cons_backfill (x c : Chapter) (l : List Chapter) :
    chainedB (x :: backfillEnds (c :: l)) =
      ((x.«end» == some c.start) && chainedB (backfillEnds (c :: l))) := by
  cases l with
  | nil => rfl
  | cons d rest =>
    cases he : c.«end» with
    | none => simp [backfillEnds, he, chainedB]
    | some e => simp [backfillEnds, he, chainedB]

theorem backfill_chained_aux (i : Nat) (raws : List RawJsonChapter)
    (h : ∀ r ∈ raws.dropLast, r.end_time = none) :
    chainedB (backfillEnds (jsonChaptersAux i raws)) = true := by
  induction raws generalizing i with
  | nil => rfl
  | cons r1 rest ih =>
    cases rest with
    | nil => rfl
    | cons r2 rest2 =>
      have h1 : r1.end_time = none := by
        apply h
        simp [List.dropLast]
      have hstep : jsonChaptersAux i (r1 :: r2 :: rest2) =
          jsonChapterAt i r1 :: jsonChaptersAux (i + 1) (r2 :: rest2) := rfl
      have hJ2 : jsonChaptersAux (i + 1) (r2 :: rest2) =
          jsonChapterAt (i + 1) r2 :: jsonChaptersAux (i + 2) rest2 := rfl
      have hend : (jsonChapterAt i r1).«end» = none := h1
      have hbf : backfillEnds
            (jsonChapterAt i r1 :: jsonChaptersAux (i + 1) (r2 :: rest2)) =
          { jsonChapterAt i r1 with
            «end» := some (jsonChapterAt (i + 1) r2).start } ::
            backfillEnds (jsonChaptersAux (i + 1) (r2 :: rest2)) := by
        rw [hJ2]
        simp only [backfillEnds, hend]
      rw [hstep, hbf, hJ2, chainedB_cons_backfill, ← hJ2]
      rw [ih (i + 1) (by
        intro r hr
        apply h
        cases rest2 with
        | nil => simp at hr
        | cons r3 rest3 =>
          simp only [List.dropLast] at hr ⊢
          simp [hr])]
      simp

/-! ## Claim C2 — parser invariants -/

/-- C2 fails as stated: the JSON parser preserves an explicitly supplied
`end_time` even when it differs from the next chapter's start, so the
adjacent-chain equation can fail while both values are present. -/
theorem claim_C2_counterexample :
    parse_chapters_json [⟨some 0, some 10, some "A"⟩, ⟨some 20, none, some "B"⟩] =
      [⟨1, 0, some 10, "A"⟩, ⟨2, 20, none, "B"⟩] ∧
    chainedB (parse_chapters_json
      [⟨some 0, some 10, some "A"⟩, ⟨some 20, none, some "B"⟩]) = false := by
  decide

/-- C2 (amended): every sequence returned by `parse_chapters_txt` has
indices contiguous from 1 and adjacent `end = start` chaining; every
sequence returned by `parse_chapters_json` has indices contiguous from
1, and the chaining holds provided every chapter except possibly the
last omits `end_time` (so that ends are backfilled from the next start);
an explicit `end_time` is kept verbatim. -/
theorem claim_C2_amended :
    (∀ content : String,
      (chaptersTxt content).map Chapter.index =
        List.range' 1 (chaptersTxt content).length ∧
      chainedB (chaptersTxt content) = true) ∧
    (∀ raws : List RawJsonChapter,
      (parse_chapters_json raws).map Chapter.index =
        List.range' 1 (parse_chapters_json raws).length) ∧
    (∀ raws : List RawJsonChapter,
      (∀ r ∈ raws.dropLast, r.end_time = none) →
      chainedB (parse_chapters_json raws) = true) := by
  refine ⟨fun content => ?_, fun raws => ?_, fun raws h => ?_⟩
  · obtain ⟨r, hr⟩ := parseLinesE_ok (splitLines content.data)
    have hc : chaptersTxt content = chaptersOfRawAux 1 r := by
      simp [chaptersTxt, parse_chapters_txt, hr, Except.map]
    rw [hc, chaptersOfRawAux_indices, chaptersOfRawAux_length]
    exact ⟨rfl, chaptersOfRawAux_chained 1 r⟩
  · unfold parse_chapters_json
    split
    · rfl
    · rw [backfillEnds_map_index, backfillEnds_length, jsonChaptersAux_indices,
        jsonChaptersAux_length]
  · unfold parse_chapters_json
    split
    · rfl
    · exact backfill_chained_aux 1 raws h

/-- Witness for the hypothesis-bearing part of C2 (amended), at a
concrete one-element array. -/
theorem claim_C2_amended_witness :
    chainedB (parse_chapters_json [⟨some 5, none, none⟩]) = true :=
  claim_C2_amended.2.2 [⟨some 5, none, none⟩] (by decide)

/-! ## Chapter discovery (`find_chapters`) -/

/-- The sidecar files next to an audio path: `txt` is the content of
`<base>.chapters.txt` when that file exists, `json` the decoded
`chapters` array of `<base>.info.json` when that file exists (JSON
decoding itself is outside this model). A text file has
`st_size > 0` exactly when its content is nonempty. -/
structure SidecarFS where
  txt : Option String
  json : Option (List RawJsonChapter)

/-- The JSON fallback of `find_chapters`; the Boolean records that the
JSON sidecar was consulted. -/
def findChaptersJsonStep (fs : SidecarFS) : List Chapter × Bool :=
  match fs.json with
  | some raws =>
    if (parse_chapters_json raws).isEmpty then ([], true)
    else (parse_chapters_json raws, true)
  | none => ([], false)

/-- `find_chapters`, instrumented with whether the JSON sidecar was
consulted: a text sidecar with nonzero size takes priority; otherwise
the JSON sidecar's nonempty parse; otherwise `[]`. -/
def find_chaptersT (fs : SidecarFS) : List Chapter × Bool :=
  match fs.txt with
  | some t =>
    if t.data.length > 0 then (chaptersTxt t, false)
    else findChaptersJsonStep fs
  | none => findChaptersJsonStep fs

/-- `find_chapters` as called by the rest of the code. -/
def find_chapters (fs : SidecarFS) : List Chapter := (find_chaptersT fs).1

/-! ## Claim C6 — discovery priority -/

/-- C6: discovery follows strict priority: a text sidecar of non-zero
size wins and JSON is never consulted; otherwise a JSON sidecar with a
nonempty chapter array; otherwise the empty list. -/
theorem claim_C6 (fs : SidecarFS) :
    (∀ t, fs.txt = some t → t ≠ "" →
      find_chaptersT fs = (chaptersTxt t, false)) ∧
    ((fs.txt = none ∨ fs.txt = some "") →
      ∀ raws, fs.json = some raws → parse_chapters_json raws ≠ [] →
        find_chaptersT fs = (parse_chapters_json raws, true)) ∧
    ((fs.txt = none ∨ fs.txt = some "") → fs.json = none →
      find_chapters fs = []) ∧
    ((fs.txt = none ∨ fs.txt = some "") →
      ∀ raws, fs.json = some raws → parse_chapters_json raws = [] →
        find_chapters fs = []) := by
  refine ⟨fun t ht hne => ?_, fun htxt raws hj hne => ?_, fun htxt hj => ?_,
    fun htxt raws hj hemp => ?_⟩
  · have hlen : t.length ≠ 0 := by
      cases t with
      | mk data =>
        cases data with
        | nil => exact absurd rfl hne
        | cons c rest => simp [String.length]
    simp [find_chaptersT, ht, hlen]
  · have hne' : (parse_chapters_json raws).isEmpty = false := by
      cases h : parse_chapters_json raws
      · exact absurd h hne
      · rfl
    rcases htxt with htxt | htxt <;>
      simp [find_chaptersT, htxt, findChaptersJsonStep, hj, hne']
  · rcases htxt with htxt | htxt <;>
      simp [find_chapters, find_chaptersT, htxt, findChaptersJsonStep, hj]
  · rcases htxt with htxt | htxt <;>
      simp [find_chapters, find_chaptersT, htxt, findChaptersJsonStep, hj, hemp]

/-- Witness for C6 at concrete sidecar configurations. -/
theorem claim_C6_witness :
    find_chaptersT ⟨some "0:05 A", some [⟨some 0, none, some "J"⟩]⟩ =
      (chaptersTxt "0:05 A", false) ∧
    find_chaptersT ⟨none, some [⟨some 0, none, some "J"⟩]⟩ =
      (parse_chapters_json [⟨some 0, none, some "J"⟩], true) ∧
    find_chapters ⟨some "", none⟩ = [] := by
  refine ⟨(claim_C6 _).1 "0:05 A" rfl (by decide), ?_, ?_⟩
  · exact (claim_C6 _).2.1 (Or.inl rfl) _ rfl (by decide)
  · exact (claim_C6 _).2.2.1 (Or.inr rfl) rfl

/-! ## The chapter-source resolver (`_get_chapters_for`) -/

/-- `MIN_ALBUM_DURATION = 8 * 60` (`src/muzik/core/musicbrainz.py`). -/
def MIN_ALBUM_DURATION : ℚ := 8 * 60

/-- The environment one `_get_chapters_for(af, no_split)` call runs in:
the discovery result for `af`, the probed duration (`ffprobe`'s float
modelled as an exact rational, `none` on probe failure), the
MusicBrainz lookup result (`[]` = no match), the operator's console
answer (`none` = `EOFError`/`KeyboardInterrupt`) and the outcome of the
interactive editor when the answer is `e` (`none` = editor aborted,
which is falsy in `edit_chapters(...) or mb_chapters`). -/
structure ResolveEnv where
  found : List Chapter
  duration : Option ℚ
  mbChapters : List Chapter
  inputRaw : Option String
  editResult : Option (List Chapter)

/-- The operator's processed answer:
`input().strip().lower() or "y"`, with cancellation mapped to `"n"`. -/
def resolveAnswer (env : ResolveEnv) : String :=
  match env.inputRaw with
  | none => "n"
  | some s => if (pyStripStr s).toLower = "" then "y" else (pyStripStr s).toLower

/-- `_get_chapters_for`, instrumented with whether the MusicBrainz
lookup service was queried. Returns `none` when the file is to be
treated as a single track. The sidecar write on accept is a filesystem
effect outside this model. -/
def getChaptersForT (env : ResolveEnv) (no_split : Bool) :
    Option (List Chapter) × Bool :=
  if no_split then (none, false)
  else if !env.found.isEmpty then (some env.found, false)
  else
    match env.duration with
    | none => (none, false)
    | some d =>
      if d = 0 ∨ d < MIN_ALBUM_DURATION then (none, false)
      else if env.mbChapters.isEmpty then (none, true)
      else if resolveAnswer env = "e" then
        (some (match env.editResult with
               | none => env.mbChapters
               | some cs => if cs.isEmpty then env.mbChapters else cs), true)
      else if resolveAnswer env = "y" then (some env.mbChapters, true)
      else (none, true)

/-! ## Claim C7 — short files skip the lookup -/

/-- C7: a file with no discovered chapters whose probed duration is
below the 480-second album threshold resolves to no chapters (`None`)
without querying the lookup service. -/
theorem claim_C7 (env : ResolveEnv) (noSplit : Bool) (d : ℚ)
    (hfound : env.found = []) (hdur : env.duration = some d)
    (hlt : d < MIN_ALBUM_DURATION) :
    getChaptersForT env noSplit = (none, false) := by
  unfold getChaptersForT
  cases noSplit with
  | true => rfl
  | false =>
    rw [hfound, hdur]
    simp [Or.inr hlt]

/-- Witness for C7: duration 300 s < 480 s. -/
theorem claim_C7_witness :
    getChaptersForT ⟨[], some 300, [⟨1, 0, none, "T"⟩], some "y", none⟩ false =
      (none, false) :=
  claim_C7 _ false 300 rfl rfl (by norm_num [MIN_ALBUM_DURATION])

/-! ## JSON values and `json.loads` (for the persistent cache) -/

/-- A JSON value as produced by `json.loads`. Numeric literals are kept
as their validated source text: the code under study never inspects the
numeric value of a cached number. -/
inductive PyJson where
  | null
  | bool (b : Bool)
  | num (lit : String)
  | str (s : String)
  | arr (elems : List PyJson)
  | obj (fields : List (String × PyJson))

/-- JSON insignificant whitespace. -/
def jsonWs (c : Char) : Bool := c = ' ' || c = '\t' || c = '\n' || c = '\r'

def skipWs (cs : List Char) : List Char := cs.dropWhile jsonWs

def hexVal (c : Char) : Option Nat :=
  if c.isDigit then some (c.toNat - 48)
  else if 'a' ≤ c ∧ c ≤ 'f' then some (c.toNat - 87)
  else if 'A' ≤ c ∧ c ≤ 'F' then some (c.toNat - 55)
  else none

/-- JSON string body after the opening quote: standard escapes,
`\uXXXX` decoded from four hex digits (surrogate pairing not modelled;
no input considered uses it), raw control characters rejected
(`json.loads` default `strict=True`). -/
def parseStrBody : List Char → List Char → Option (String × List Char)
  | _, [] => none
  | acc, '"' :: rest => some (⟨acc.reverse⟩, rest)
  | acc, '\\' :: e :: rest =>
    match e with
    | '"' => parseStrBody ('"' :: acc) rest
    | '\\' => parseStrBody ('\\' :: acc) rest
    | '/' => parseStrBody ('/' :: acc) rest
    | 'b' => parseStrBody ('\x08' :: acc) rest
    | 'f' => parseStrBody ('\x0c' :: acc) rest
    | 'n' => parseStrBody ('\n' :: acc) rest
    | 'r' => parseStrBody ('\r' :: acc) rest
    | 't' => parseStrBody ('\t' :: acc) rest
    | 'u' =>
      match rest with
      | h1 :: h2 :: h3 :: h4 :: rest2 =>
        match hexVal h1, hexVal h2, hexVal h3, hexVal h4 with
        | some a, some b, some c, some d =>
          parseStrBody (Char.ofNat (((a * 16 + b) * 16 + c) * 16 + d) :: acc) rest2
        | _, _, _, _ => none
      | _ => none
    | _ => none
  | acc, c :: rest =>
    if c.toNat < 32 then none else parseStrBody (c :: acc) rest

/-- One-or-more decimal digits. -/
def digits1 (cs : List Char) : Option (List Char × List Char) :=
  if (cs.takeWhile Char.isDigit).isEmpty then none
  else some (cs.takeWhile Char.isDigit, cs.dropWhile Char.isDigit)

/-- A JSON number literal: `-?(0|[1-9][0-9]*)(\.[0-9]+)?([eE][+-]?[0-9]+)?`.
Returns the literal text and the rest. -/
def parseNumLit (cs : List Char) : Option (List Char × List Char) :=
  let signed : List Char × List Char :=
    match cs with
    | '-' :: t => (['-'], t)
    | _ => ([], cs)
  match
    (match signed.2 with
     | '0' :: t => some ((['0'] : List Char), t)
     | c :: _ =>
       if c.isDigit ∧ c ≠ '0' then digits1 signed.2 else none
     | [] => none) with
  | none => none
  | some (ip, r1) =>
    let fr : Option (List Char × List Char) :=
      match r1 with
      | '.' :: t =>
        match digits1 t with
        | some (ds, r2) => some ('.' :: ds, r2)
        | none => none
      | _ => some ([], r1)
    match fr with
    | none => none
    | some (fp, r2) =>
      let ex : Option (List Char × List Char) :=
        match r2 with
        | 'e' :: '+' :: t =>
          (digits1 t).map fun p => ('e' :: '+' :: p.1, p.2)
        | 'e' :: '-' :: t =>
          (digits1 t).map fun p => ('e' :: '-' :: p.1, p.2)
        | 'e' :: t => (digits1 t).map fun p => ('e' :: p.1, p.2)
        | 'E' :: '+' :: t =>
          (digits1 t).map fun p => ('E' :: '+' :: p.1, p.2)
        | 'E' :: '-' :: t =>
          (digits1 t).map fun p => ('E' :: '-' :: p.1, p.2)
        | 'E' :: t => (digits1 t).map fun p => ('E' :: p.1, p.2)
        | _ => some ([], r2)
      match ex with
      | none => none
      | some (ep, r3) => some (signed.1 ++ ip ++ fp ++ ep, r3)

/-- Parser modes: a value, or the element/member loop of an array or
object already being read. -/
inductive PMode where
  | value
  | arrLoop (acc : List PyJson)
  | objLoop (acc : List (String × PyJson))

/-- The recursive-descent core of `json.loads`, structurally recursive
on a fuel bound (any fuel larger than twice the input length suffices;
running out of fuel reports failure, which cannot happen at the call
site below). `NaN`/`Infinity`/`-Infinity` accepted as in Python. -/
def parseCore : Nat → PMode → List Char → Option (PyJson × List Char)
  | 0, _, _ => none
  | _ + 1, .value, 'n' :: 'u' :: 'l' :: 'l' :: rest => some (.null, rest)
  | _ + 1, .value, 't' :: 'r' :: 'u' :: 'e' :: rest => some (.bool true, rest)
  | _ + 1, .value, 'f' :: 'a' :: 'l' :: 's' :: 'e' :: rest => some (.bool false, rest)
  | _ + 1, .value, 'N' :: 'a' :: 'N' :: rest => some (.num "NaN", rest)
  | _ + 1, .value, 'I' :: 'n' :: 'f' :: 'i' :: 'n' :: 'i' :: 't' :: 'y' :: rest =>
    some (.num "Infinity", rest)
  | _ + 1, .value, '-' :: 'I' :: 'n' :: 'f' :: 'i' :: 'n' :: 'i' :: 't' :: 'y' :: rest =>
    some (.num "-Infinity", rest)
  | _ + 1, .value, '"' :: rest =>
    (parseStrBody [] rest).map fun p => (.str p.1, p.2)
  | fuel + 1, .value, '[' :: rest =>
    (match skipWs rest with
     | ']' :: r2 => some (.arr [], r2)
     | r1 => parseCore fuel (.arrLoop []) r1)
  | fuel + 1, .value, '{' :: rest =>
    (match skipWs rest with
     | '}' :: r2 => some (.obj [], r2)
     | r1 => parseCore fuel (.objLoop []) r1)
  | _ + 1, .value, cs => (parseNumLit cs).map fun p => (.num ⟨p.1⟩, p.2)
  | fuel + 1, .arrLoop acc, cs =>
    (match parseCore fuel .value cs with
     | none => none
     | some (v, r) =>
       match skipWs r with
       | ',' :: r2 => parseCore fuel (.arrLoop (v :: acc)) (skipWs r2)
       | ']' :: r2 => some (.arr (v :: acc).reverse, r2)
       | _ => none)
  | fuel + 1, .objLoop acc, cs =>
    (match cs with
     | '"' :: r0 =>
       match parseStrBody [] r0 with
       | none => none
       | some (k, r1) =>
         match skipWs r1 with
         | ':' :: r2 =>
           (match parseCore fuel .value (skipWs r2) with
            | none => none
            | some (v, r3) =>
              match skipWs r3 with
              | ',' :: r4 =>
                (match skipWs r4 with
                 | '"' :: _ => parseCore fuel (.objLoop ((k, v) :: acc)) (skipWs r4)
                 | _ => none)
              | '}' :: r4 => some (.obj ((k, v) :: acc).reverse, r4)
              | _ => none)
         | _ => none
     | _ => none)

/-- `json.loads` on a whole document: a parse failure is the
`JSONDecodeError` the caller catches. -/
def pyLoads (s : String) : Option PyJson :=
  match parseCore (2 * s.length + 8) .value (skipWs s.data) with
  | none => none
  | some (v, rest) => if (skipWs rest).isEmpty then some v else none

/-! ## The persistent cache (`src/muzik/core/cache.py`) -/

/-- The cache directory contents: `st key ext` is the content of
`CACHE_DIR/<key>.<ext>` when that file exists. -/
def CacheStore := String → String → Option String

/-- `cache.get(key, ext)`: read the file if it exists. -/
def cache_get (st : CacheStore) (key : String) (ext : String) : Option String :=
  st key ext

/-- `cache.get_json(key)`: read `<key>.json`; a falsy (empty or absent)
raw value is `None`; `json.JSONDecodeError` is caught and mapped to
`None`. -/
def get_json (st : CacheStore) (key : String) : Option PyJson :=
  match cache_get st key "json" with
  | none => none
  | some raw => if raw = "" then none else pyLoads raw

/-- Python truthiness of a decoded JSON value (zero numbers, empty
strings/arrays/objects, `null` and `False` are falsy). -/
def pyJsonTruthy : PyJson → Bool
  | .null => false
  | .bool b => b
  | .num lit =>
    lit = "NaN" || lit = "Infinity" || lit = "-Infinity" ||
      lit.data.any fun c => c.isDigit && c ≠ '0'
  | .str s => s ≠ ""
  | .arr l => !l.isEmpty
  | .obj l => !l.isEmpty

/-- `dict.setdefault` on an insertion-ordered field list. -/
def objSetdefault (fields : List (String × PyJson)) (k : String) (v : PyJson) :
    List (String × PyJson) :=
  if fields.any (fun p => p.1 = k) then fields else fields ++ [(k, v)]

/-- `_load_playlist_state`: `get_json(f"playlist_{id}") or {}`, then
`setdefault` of `playlist_id` and `videos`. A truthy non-object value
would crash on `.setdefault` (`AttributeError`), modelled as `.error`. -/
def load_playlist_state (st : CacheStore) (pid : String) :
    Except String (List (String × PyJson)) :=
  match
    (match get_json st ("playlist_" ++ pid) with
     | some v => if pyJsonTruthy v then v else .obj []
     | none => .obj []) with
  | .obj fields =>
    .ok (objSetdefault (objSetdefault fields "playlist_id" (.str pid))
      "videos" (.obj []))
  | _ => .error "AttributeError: setdefault on non-dict"

/-! ## Claim C9 — malformed persisted JSON -/

/-- C9: when the persisted JSON blob for a cache key does not parse,
`get_json` returns `None` instead of raising, and loading the playlist
state returns the empty default (`playlist_id` and empty `videos`) so
the batch run continues. -/
theorem claim_C9 (st : CacheStore) (pid key : String)
    (hkey : ∀ raw, st key "json" = some raw → pyLoads raw = none)
    (hpid : ∀ raw, st ("playlist_" ++ pid) "json" = some raw → pyLoads raw = none) :
    get_json st key = none ∧
    load_playlist_state st pid =
      .ok [("playlist_id", .str pid), ("videos", .obj [])] := by
  have hgen : ∀ k, (∀ raw, st k "json" = some raw → pyLoads raw = none) →
      get_json st k = none := by
    intro k hk
    unfold get_json cache_get
    cases h : st k "json" with
    | none => rfl
    | some raw =>
      by_cases he : raw = ""
      · simp [he]
      · simp [he, hk raw h]
  refine ⟨hgen key hkey, ?_⟩
  unfold load_playlist_state
  rw [hgen _ hpid]
  rfl

/-- The store backing the C9 witness: one malformed playlist blob. -/
def badJsonStore : CacheStore := fun k e =>
  if k = "playlist_p" ∧ e = "json" then some "oops not json" else none

/-- Witness for C9 at the concrete malformed blob `"oops not json"`. -/
theorem claim_C9_witness :
    get_json badJsonStore "playlist_p" = none ∧
    load_playlist_state badJsonStore "p" =
      .ok [("playlist_id", .str "p"), ("videos", .obj [])] := by
  have hload : pyLoads "oops not json" = none := rfl
  refine claim_C9 badJsonStore "p" "playlist_p" ?_ ?_
  · intro raw hr
    rw [show badJsonStore "playlist_p" "json" = some "oops not json" from rfl] at hr
    injection hr with h
    rw [← h]
    exact hload
  · intro raw hr
    rw [show badJsonStore ("playlist_" ++ "p") "json" = some "oops not json" from
      rfl] at hr
    injection hr with h
    rw [← h]
    exact hload

/-! ### Serializer round trip: splitting the joined lines back apart -/

set_option maxHeartbeats 1000000 in
theorem splitLinesAux_cons_not_cr {c : Char} (hc : c ≠ '\r')
    (acc rest : List Char) :
    splitLinesAux acc (c :: rest) =
      if isPyLineBreak c then acc.reverse :: splitLinesAux [] rest
      else splitLinesAux (c :: acc) rest := by
  rw [splitLinesAux.eq_def]
  split
  · rename_i heq
    exact absurd heq (List.cons_ne_nil _ _)
  · rename_i heq
    rw [List.cons.injEq] at heq
    exact absurd heq.1 hc
  · rename_i heq
    rw [List.cons.injEq] at heq
    obtain ⟨h1, h2⟩ := heq
    subst h1
    subst h2
    rfl

theorem splitLinesAux_line {l : List Char} :
    ∀ (acc rest : List Char), (∀ c ∈ l, isPyLineBreak c = false) →
      splitLinesAux acc (l ++ '\n' :: rest) =
        (acc.reverse ++ l) :: splitLinesAux [] rest := by
  induction l with
  | nil =>
    intro acc rest _
    rw [List.nil_append, splitLinesAux_cons_not_cr (by decide), if_pos (by decide)]
    simp
  | cons c t ih =>
    intro acc rest hl
    have hc := hl c (List.mem_cons_self _ _)
    have hcr : c ≠ '\r' := by
      intro h
      rw [h] at hc
      exact absurd hc (by decide)
    rw [List.cons_append, splitLinesAux_cons_not_cr hcr, if_neg (by simp [hc])]
    rw [ih _ _ (fun x hx => hl x (List.mem_cons_of_mem _ hx))]
    simp

theorem splitLines_joinNL {ls : List (List Char)} (hne : ls ≠ [])
    (h : ∀ l ∈ ls, ∀ c ∈ l, isPyLineBreak c = false) :
    splitLines (joinNL ls ++ ['\n']) = ls := by
  induction ls with
  | nil => exact absurd rfl hne
  | cons l rest ih =>
    cases rest with
    | nil =>
      show splitLinesAux [] (l ++ '\n' :: []) = [l]
      rw [splitLinesAux_line [] [] (h l (List.mem_cons_self _ _))]
      simp [splitLinesAux]
    | cons l2 rest2 =>
      have hj : joinNL (l :: l2 :: rest2) = l ++ '\n' :: joinNL (l2 :: rest2) := rfl
      show splitLinesAux [] (joinNL (l :: l2 :: rest2) ++ ['\n']) = l :: l2 :: rest2
      rw [hj, List.append_assoc, List.cons_append,
        splitLinesAux_line [] _ (h l (List.mem_cons_self _ _))]
      rw [show splitLinesAux [] (joinNL (l2 :: rest2) ++ '\n' :: []) =
            splitLines (joinNL (l2 :: rest2) ++ ['\n']) from rfl]
      rw [ih (by simp) (fun x hx => h x (List.mem_cons_of_mem _ hx))]
      simp

/-! ### Matching a serialized line -/

theorem takeWhile_append_not (p : Char → Bool) {xs : List Char} {y : Char}
    (ys : List Char) (hx : ∀ x ∈ xs, p x = true) (hy : p y = false) :
    (xs ++ y :: ys).takeWhile p = xs ∧ (xs ++ y :: ys).dropWhile p = y :: ys := by
  induction xs with
  | nil => simp [List.takeWhile, List.dropWhile, hy]
  | cons x t ih =>
    have hx1 := hx x (List.mem_cons_self _ _)
    have ht := ih (fun z hz => hx z (List.mem_cons_of_mem _ hz))
    simp only [List.cons_append, List.takeWhile, List.dropWhile, hx1,
      List.append_eq]
    exact ⟨by rw [ht.1], ht.2⟩

theorem natDigitsChAux_small {fuel n : Nat} (hf : 0 < fuel) (h : n < 10) :
    natDigitsChAux fuel n = [Char.ofNat (48 + n)] := by
  cases fuel with
  | zero => omega
  | succ f => simp [natDigitsChAux, h]

theorem pad2_natDigits_pair {n : Nat} (h : n < 100) :
    ∃ a b, pad2 (natDigitsCh n) = [a, b] ∧ a ∈ digitChars ∧ b ∈ digitChars := by
  by_cases h10 : n < 10
  · refine ⟨'0', Char.ofNat (48 + n), ?_, by decide, digitChar_mem n h10⟩
    unfold natDigitsCh
    rw [natDigitsChAux_small (by omega) h10]
    rfl
  · refine ⟨Char.ofNat (48 + n / 10), Char.ofNat (48 + n % 10), ?_,
      digitChar_mem _ (by omega), digitChar_mem _ (Nat.mod_lt _ (by norm_num))⟩
    unfold natDigitsCh
    have hstep : natDigitsChAux (n + 1) n =
        natDigitsChAux n (n / 10) ++ [Char.ofNat (48 + n % 10)] := by
      rw [natDigitsChAux, if_neg h10]
    rw [hstep, natDigitsChAux_small (by omega) (by omega)]
    rfl

theorem dropWhile_eq_self_of_head {p : Char → Bool} {cs : List Char}
    (h : ∀ c, cs.head? = some c → p c = false) : cs.dropWhile p = cs := by
  cases cs with
  | nil => rfl
  | cons c t => simp [List.dropWhile, h c rfl]

theorem pyStrip_eq_self_of_ends {cs : List Char}
    (h1 : ∀ c, cs.head? = some c → isPySpace c = false)
    (h2 : ∀ c, cs.getLast? = some c → isPySpace c = false) :
    pyStrip cs = cs := by
  unfold pyStrip
  rw [dropWhile_eq_self_of_head h1,
      dropWhile_eq_self_of_head (fun c hc =>
        h2 c (by rw [← List.head?_reverse]; exact hc)),
      List.reverse_reverse]

/-! ### Canonical chapter sequences (the domain of the round trip) -/

/-- Adjacent ends chained and the last end absent — the shape both
parsers produce. -/
def chainExactB : List Chapter → Bool
  | [] => true
  | [c] => c.«end» == none
  | c1 :: c2 :: rest => (c1.«end» == some c2.start) && chainExactB (c2 :: rest)

/-- A title that survives the line round trip: nonempty, no leading or
trailing whitespace (i.e. already stripped), no line-break characters. -/
def goodTitleB (t : String) : Bool :=
  !t.data.isEmpty &&
  (match t.data.head? with | some c => !isPySpace c | none => false) &&
  (match t.data.getLast? with | some c => !isPySpace c | none => false) &&
  t.data.all fun c => !isPyLineBreak c

/-- Canonical sequences: indices contiguous from 1, ends chained with
the last end absent, nonnegative starts, good titles. -/
def canonicalB (cs : List Chapter) : Bool :=
  (cs.map Chapter.index == List.range' 1 cs.length) &&
  chainExactB cs &&
  (cs.all fun c => decide (0 ≤ c.start) && goodTitleB c.title)

theorem digit_not_lb {c : Char} (h : c ∈ digitChars) : isPyLineBreak c = false := by
  fin_cases h <;> decide

/-- Matching one serialized line recovers the timestamp text and the
title. -/
theorem matchLine_serialized {s : Int} (hs : 0 ≤ s) {title : List Char}
    (htne : title ≠ [])
    (hth : ∀ c, title.head? = some c → isPySpace c = false) :
    matchLine ((secs_to_ts s).data ++ ' ' :: title) =
      some ((secs_to_ts s).data, title) := by
  have hH : (0 : Int) ≤ s / 3600 := Int.ediv_nonneg hs (by norm_num)
  have hM : (0 : Int) ≤ s % 3600 / 60 :=
    Int.ediv_nonneg (Int.emod_nonneg _ (by norm_num)) (by norm_num)
  have hS : (0 : Int) ≤ s % 60 := Int.emod_nonneg _ (by norm_num)
  have hMlt : (s % 3600 / 60).toNat < 100 := by omega
  have hSlt : (s % 60).toNat < 100 := by omega
  obtain ⟨a, b, hab, haD, hbD⟩ := pad2_natDigits_pair hMlt
  obtain ⟨cc, dd, hcd, hcD, hdD⟩ := pad2_natDigits_pair hSlt
  have hMM : pad2 (intReprCh (s % 3600 / 60)) = [a, b] := by
    rw [intReprCh_nonneg hM]; exact hab
  have hSS : pad2 (intReprCh (s % 60)) = [cc, dd] := by
    rw [intReprCh_nonneg hS]; exact hcd
  have hHne : pad2 (intReprCh (s / 3600)) ≠ [] := by
    rw [intReprCh_nonneg hH]; exact pad2_ne_nil _
  have hHD : ∀ c ∈ pad2 (intReprCh (s / 3600)), c ∈ digitChars := by
    rw [intReprCh_nonneg hH]; exact pad2_mem (natDigitsCh_mem _)
  have hl : (secs_to_ts s).data ++ ' ' :: title =
      pad2 (intReprCh (s / 3600)) ++
        ':' :: (a :: b :: ':' :: (cc :: dd :: ' ' :: title)) := by
    show (pad2 (intReprCh (s / 3600)) ++
        (':' :: (pad2 (intReprCh (s % 3600 / 60)) ++
          (':' :: pad2 (intReprCh (s % 60)))))) ++ ' ' :: title = _
    rw [hMM, hSS]
    simp
  have hg1 : pad2 (intReprCh (s / 3600)) ++ ':' :: a :: b :: ':' :: [cc, dd] =
      (secs_to_ts s).data := by
    show _ = pad2 (intReprCh (s / 3600)) ++
        (':' :: (pad2 (intReprCh (s % 3600 / 60)) ++
          (':' :: pad2 (intReprCh (s % 60)))))
    rw [hMM, hSS]
    rfl
  have htd := takeWhile_append_not Char.isDigit
    (a :: b :: ':' :: (cc :: dd :: ' ' :: title))
    (fun x hx => digit_isDigit (hHD x hx))
    (by decide : Char.isDigit ':' = false)
  have hHisE : (pad2 (intReprCh (s / 3600))).isEmpty = false := by
    cases hp : pad2 (intReprCh (s / 3600)) with
    | nil => exact absurd hp hHne
    | cons x xs => rfl
  have htE : title.isEmpty = false := by
    cases ht : title with
    | nil => exact absurd ht htne
    | cons x xs => rfl
  have hdrop : title.dropWhile isPySpace = title := dropWhile_eq_self_of_head hth
  rw [hl]
  simp only [matchLine, htd.1, htd.2, hHisE, Bool.false_eq_true, if_false,
    digit_isDigit haD, digit_isDigit hbD, digit_isDigit hcD, digit_isDigit hdD,
    Bool.and_self, if_true, List.dropWhile,
    (by decide : isPySpace ' ' = true), hdrop, htE, hg1]

/-- Parsing the serialized lines recovers exactly the `(start, title)`
pairs. -/
theorem parseLinesE_serialized (cs : List Chapter)
    (h : ∀ c ∈ cs, (decide (0 ≤ c.start) && goodTitleB c.title) = true) :
    parseLinesE (cs.map serializeLine) =
      .ok (cs.map fun c => (c.start, c.title)) := by
  induction cs with
  | nil => rfl
  | cons c t ih =>
    have hc := h c (List.mem_cons_self _ _)
    rw [Bool.and_eq_true, decide_eq_true_eq] at hc
    obtain ⟨hs, hgt⟩ := hc
    simp only [goodTitleB, Bool.and_eq_true] at hgt
    obtain ⟨⟨⟨h1, h2⟩, h3⟩, _⟩ := hgt
    have htne : c.title.data ≠ [] := by
      intro hnil
      rw [hnil] at h1
      exact absurd h1 (by decide)
    have hth : ∀ x, c.title.data.head? = some x → isPySpace x = false := by
      intro x hx
      rw [hx] at h2
      simpa using h2
    have htl : ∀ x, c.title.data.getLast? = some x → isPySpace x = false := by
      intro x hx
      rw [hx] at h3
      simpa using h3
    have hH : (0 : Int) ≤ c.start / 3600 := Int.ediv_nonneg hs (by norm_num)
    have hHne : pad2 (intReprCh (c.start / 3600)) ≠ [] := by
      rw [intReprCh_nonneg hH]
      exact pad2_ne_nil _
    have hHD : ∀ y ∈ pad2 (intReprCh (c.start / 3600)), y ∈ digitChars := by
      rw [intReprCh_nonneg hH]
      exact pad2_mem (natDigitsCh_mem _)
    have hline : pyStrip (serializeLine c) = serializeLine c := by
      apply pyStrip_eq_self_of_ends
      · intro x hx
        have hx' : (pad2 (intReprCh (c.start / 3600)) ++
            ((':' :: (pad2 (intReprCh (c.start % 3600 / 60)) ++
              (':' :: pad2 (intReprCh (c.start % 60))))) ++
              ' ' :: c.title.data)).head? = some x := by
          rw [← List.append_assoc]
          exact hx
        cases hp : pad2 (intReprCh (c.start / 3600)) with
        | nil => exact absurd hp hHne
        | cons y ys =>
          rw [hp, List.cons_append, List.head?_cons] at hx'
          injection hx' with hxy
          refine digit_not_space (hHD x ?_)
          rw [hp, hxy]
          exact List.mem_cons_self _ _
      · intro x hx
        have hx' : ((secs_to_ts c.start).data ++
            ' ' :: c.title.data).getLast? = some x := hx
        rw [List.getLast?_append_of_ne_nil _ (by simp)] at hx'
        rw [show (' ' :: c.title.data : List Char) = [' '] ++ c.title.data
            from rfl, List.getLast?_append_of_ne_nil _ htne] at hx'
        exact htl x hx'
    have hmatch : matchLine (pyStrip (serializeLine c)) =
        some ((secs_to_ts c.start).data, c.title.data) := by
      rw [hline]
      exact matchLine_serialized hs htne hth
    have hlineE : (pyStrip (serializeLine c)).isEmpty = false := by
      rw [hline]
      cases hsl : serializeLine c with
      | nil =>
        exact absurd hsl (by
          show (secs_to_ts c.start).data ++ ' ' :: c.title.data ≠ []
          simp)
      | cons y ys => rfl
    have hts : ts_to_secs ⟨(secs_to_ts c.start).data⟩ = some c.start := by
      rw [show (⟨(secs_to_ts c.start).data⟩ : String) = secs_to_ts c.start
        from rfl]
      exact ts_secs_roundtrip c.start hs
    have hstrip2 : pyStrip c.title.data = c.title.data :=
      pyStrip_eq_self_of_ends hth htl
    rw [List.map_cons]
    simp only [parseLinesE, hlineE, hmatch, hts, Bool.false_eq_true, if_false]
    rw [ih (fun x hx => h x (List.mem_cons_of_mem _ hx))]
    simp only [Except.map, hstrip2]
    rw [show (⟨c.title.data⟩ : String) = c.title from rfl]
    rfl

/-- Rebuilding chapters from the extracted `(start, title)` pairs gives
back a canonical sequence. -/
theorem chaptersOfRawAux_roundtrip :
    ∀ (cs : List Chapter) (i : Nat),
      cs.map Chapter.index = List.range' i cs.length →
      chainExactB cs = true →
      chaptersOfRawAux i (cs.map fun c => (c.start, c.title)) = cs := by
  intro cs
  induction cs with
  | nil => intro i _ _; rfl
  | cons c t ih =>
    intro i hidx hch
    rw [List.map_cons, List.length_cons, List.range'] at hidx
    rw [List.cons.injEq] at hidx
    obtain ⟨hci, hrest⟩ := hidx
    cases t with
    | nil =>
      have hend : c.«end» = none := by
        have : (c.«end» == (none : Option Int)) = true := hch
        exact eq_of_beq this
      show ({ index := i, start := c.start, «end» := none, title := c.title }
        : Chapter) :: [] = [c]
      rw [List.cons.injEq]
      refine ⟨?_, rfl⟩
      cases c
      simp_all
    | cons c2 t2 =>
      have hch' : (c.«end» == some c2.start) = true ∧
          chainExactB (c2 :: t2) = true := by
        rw [← Bool.and_eq_true]
        exact hch
      have hend : c.«end» = some c2.start := eq_of_beq hch'.1
      show Chapter.mk i c.start (some c2.start) c.title ::
          chaptersOfRawAux (i + 1) ((c2 :: t2).map fun c => (c.start, c.title)) =
          c :: c2 :: t2
      rw [List.cons.injEq]
      constructor
      · cases c
        simp_all
      · exact ih (i + 1) hrest hch'.2

/-! ## Claim C3 — serializer round trip -/

/-- C3 fails as stated: a sequence with non-empty titles whose index is
not 1 (or whose ends are not the derived chain) is not recovered — the
parser renumbers from 1 and re-derives ends. -/
theorem claim_C3_counterexample :
    (∀ c ∈ ([⟨2, 0, none, "A"⟩] : List Chapter), c.title ≠ "") ∧
    parse_chapters_txt (serialize_chapters [⟨2, 0, none, "A"⟩]) =
      .ok [⟨1, 0, none, "A"⟩] ∧
    ([⟨1, 0, none, "A"⟩] : List Chapter) ≠ [⟨2, 0, none, "A"⟩] :=
  ⟨by decide, by rfl, by decide⟩

/-- C3 (amended): `parse_chapters_txt (serialize_chapters cs) = cs` for
every canonical sequence: indices contiguous from 1, adjacent ends
chained with the last end absent, nonnegative starts, and titles that
are nonempty, already stripped, and free of line-break characters. -/
theorem claim_C3_amended (cs : List Chapter) (h : canonicalB cs = true) :
    parse_chapters_txt (serialize_chapters cs) = .ok cs := by
  simp only [canonicalB, Bool.and_eq_true] at h
  obtain ⟨⟨hidx, hch⟩, hall⟩ := h
  have hidx' : cs.map Chapter.index = List.range' 1 cs.length := eq_of_beq hidx
  cases hcs : cs with
  | nil => rfl
  | cons c0 t0 =>
    subst hcs
    have hall' : ∀ c ∈ c0 :: t0, (decide (0 ≤ c.start) && goodTitleB c.title) =
        true := by
      rw [List.all_eq_true] at hall
      exact hall
    have hlines : ∀ l ∈ (c0 :: t0).map serializeLine, ∀ ch ∈ l,
        isPyLineBreak ch = false := by
      intro l hl ch hch2
      rw [List.mem_map] at hl
      obtain ⟨c, hcmem, hceq⟩ := hl
      subst hceq
      have hc := hall' c hcmem
      rw [Bool.and_eq_true, decide_eq_true_eq] at hc
      obtain ⟨hs, hgt⟩ := hc
      simp only [goodTitleB, Bool.and_eq_true] at hgt
      have hH : (0 : Int) ≤ c.start / 3600 := Int.ediv_nonneg hs (by norm_num)
      have hM : (0 : Int) ≤ c.start % 3600 / 60 :=
        Int.ediv_nonneg (Int.emod_nonneg _ (by norm_num)) (by norm_num)
      have hS : (0 : Int) ≤ c.start % 60 := Int.emod_nonneg _ (by norm_num)
      rcases List.mem_append.mp hch2 with hm | hm
      · have hm' : ch ∈ pad2 (intReprCh (c.start / 3600)) ++
            (':' :: (pad2 (intReprCh (c.start % 3600 / 60)) ++
              (':' :: pad2 (intReprCh (c.start % 60))))) := hm
        have hdig : ∀ {i : Int}, 0 ≤ i → ∀ x ∈ pad2 (intReprCh i),
            x ∈ digitChars := by
          intro i hi x hx
          rw [intReprCh_nonneg hi] at hx
          exact pad2_mem (natDigitsCh_mem _) x hx
        rcases List.mem_append.mp hm' with hm2 | hm2
        · exact digit_not_lb (hdig hH ch hm2)
        · rcases List.mem_cons.mp hm2 with hm3 | hm3
          · subst hm3; decide
          · rcases List.mem_append.mp hm3 with hm4 | hm4
            · exact digit_not_lb (hdig hM ch hm4)
            · rcases List.mem_cons.mp hm4 with hm5 | hm5
              · subst hm5; decide
              · exact digit_not_lb (hdig hS ch hm5)
      · rcases List.mem_cons.mp hm with hm2 | hm2
        · subst hm2; decide
        · have := hgt.2
          rw [List.all_eq_true] at this
          have := this ch hm2
          simpa using this
    show (parseLinesE (splitLines (joinNL ((c0 :: t0).map serializeLine) ++
      ['\n']))).map (chaptersOfRawAux 1) = .ok (c0 :: t0)
    rw [splitLines_joinNL (by simp) hlines]
    rw [parseLinesE_serialized _ hall']
    show Except.ok (chaptersOfRawAux 1
      ((c0 :: t0).map fun c => (c.start, c.title))) = _
    rw [chaptersOfRawAux_roundtrip _ 1 hidx' hch]

/-- Witness for C3 (amended) at a concrete canonical two-chapter
sequence. -/
theorem claim_C3_amended_witness :
    canonicalB [⟨1, 0, some 225, "Intro"⟩, ⟨2, 225, none, "Track Two"⟩] = true ∧
    parse_chapters_txt (serialize_chapters
      [⟨1, 0, some 225, "Intro"⟩, ⟨2, 225, none, "Track Two"⟩]) =
      .ok [⟨1, 0, some 225, "Intro"⟩, ⟨2, 225, none, "Track Two"⟩] :=
  ⟨by decide, claim_C3_amended _ (by decide)⟩

/-! ## The split command (`src/muzik/commands/split.py`) -/

/-- SHA-256 of file contents, modelled as the content itself: the
proofs use only that equal contents give equal digests. -/
def file_hash (content : String) : String := content

/-- `split_cache_key`: `split_<audio hash>_<chapters hash>`. -/
def split_cache_key (audioContent txtContent : String) : String :=
  "split_" ++ file_hash audioContent ++ "_" ++ file_hash txtContent

/-- The filesystem and cache state one `split_cmd` invocation touches:
the audio file (`sourceExists`/`sourceContent`), its sidecars, the
key/value cache (`cache.get`/`cache.set` are whole-value per key), the
set of existing directories and the extracted track files on disk. -/
structure SplitWorld where
  sourceExists : Bool
  sourceContent : String
  fs : SidecarFS
  cache : List (String × String)
  dirs : List String
  files : List String

structure SplitArgs where
  review : Bool
  keepSource : Bool
  output : Option String

/-- External collaborators of `split_cmd`: the interactive editor
outcome under `--review` (`none` = aborted), the per-chapter ffmpeg
exit status, and the pieces of the default output path
(`path.parent.parent/"splits"` and `safe_filename(metadata["album"])`,
whose Unicode transliteration is abstracted), plus `safe_filename` on
titles for output file names. -/
structure SplitExt where
  editResult : Option (List Chapter)
  ffmpegOk : Chapter → Bool
  parentSplits : String
  albumSlug : String
  safeName : String → String

inductive SplitOutcome where
  | fileNotFound
  | noChapters
  | reviewAborted
  | cachedHit (dir : String)
  | failedTracks (titles : List String)
  | success (dir : String)
deriving DecidableEq

/-- Whole-value replace of one cache key (`cache.set`). -/
def assocSet (cache : List (String × String)) (k v : String) :
    List (String × String) :=
  (k, v) :: cache.filter fun p => !(p.1 == k)

/-- The resolved output directory (`--output` or the default). -/
def splitOutDir (env : SplitExt) (args : SplitArgs) : String :=
  match args.output with
  | some o => o
  | none => env.parentSplits ++ "/" ++ env.albumSlug

/-- The cache short-circuit check of `split_cmd`: only when a
`.chapters.txt` sidecar exists, look the fingerprint up and require the
recorded output directory (stripped, as in the code) to exist on disk.
Runs after `out_dir.mkdir`, so on the world whose `dirs` already
contain the output directory. -/
def splitCacheProbe (w : SplitWorld) : Option String :=
  match w.fs.txt with
  | none => none
  | some txt =>
    match List.lookup (split_cache_key w.sourceContent txt) w.cache with
    | none => none
    | some v => if pyStripStr v ∈ w.dirs then some (pyStripStr v) else none

/-- `f"{chapter.index:02d}-{safe_title}.flac"` inside the output
directory. -/
def trackFileName (env : SplitExt) (out_dir : String) (ch : Chapter) : String :=
  out_dir ++ "/" ++ (⟨pad2 (natDigitsCh ch.index)⟩ : String) ++ "-" ++
    env.safeName ch.title ++ ".flac"

/-- One `split_cmd` run. Returns the outcome, the chapters dispatched to
the extraction tool (each dispatched job is one ffmpeg invocation;
`as_completed` makes the collection order of failures nondeterministic
in the code — the model keeps chapter order, and the claims are about
which titles are reported), and the world afterwards. Successful jobs
leave their extracted file on disk; on any failure no cache entry is
written and nothing is deleted; on full success the fingerprint is
cached and, without `keep_source`, the source and its sidecars are
removed. -/
def splitRun (env : SplitExt) (args : SplitArgs) (w : SplitWorld) :
    SplitOutcome × List Chapter × SplitWorld :=
  if w.sourceExists = false then (.fileNotFound, [], w)
  else
    if (find_chapters w.fs).isEmpty then (.noChapters, [], w)
    else
      match (if args.review then env.editResult else some (find_chapters w.fs)) with
      | none => (.reviewAborted, [], w)
      | some cs =>
        let out_dir := splitOutDir env args
        let w1 : SplitWorld := { w with dirs := out_dir :: w.dirs }
        match splitCacheProbe w1 with
        | some d => (.cachedHit d, [], w1)
        | none =>
          let w2 : SplitWorld := { w1 with
            files := w1.files ++
              ((cs.filter env.ffmpegOk).map (trackFileName env out_dir)) }
          let failed := (cs.filter fun ch => !env.ffmpegOk ch).map Chapter.title
          if failed.isEmpty = false then (.failedTracks failed, cs, w2)
          else
            let w3 : SplitWorld := match w2.fs.txt with
              | some txt => { w2 with
                cache := assocSet w2.cache
                  (split_cache_key w2.sourceContent txt) out_dir }
              | none => w2
            let w4 : SplitWorld := if args.keepSource then w3
              else { w3 with sourceExists := false, fs := ⟨none, none⟩ }
            (.success out_dir, cs, w4)

/-- Helper: discovery with a nonempty text sidecar parses it (and never
consults JSON). -/
theorem find_chaptersT_txt {fs : SidecarFS} {t : String} (ht : fs.txt = some t)
    (hne : t ≠ "") : find_chaptersT fs = (chaptersTxt t, false) := by
  have hlen : t.length ≠ 0 := by
    cases t with
    | mk data =>
      cases data with
      | nil => exact absurd rfl hne
      | cons c rest => simp [String.length]
  simp [find_chaptersT, ht, hlen]

theorem find_chapters_txt {fs : SidecarFS} {t : String} (ht : fs.txt = some t)
    (hne : t ≠ "") : find_chapters fs = chaptersTxt t := by
  unfold find_chapters
  rw [find_chaptersT_txt ht hne]

/-! ## Claim C5 — partial extraction failure -/

/-- C5: when some chapters fail extraction, the run reports failure with
exactly the failed chapters' titles, writes no cache entry (the whole
world keeps its cache), deletes neither the source nor its sidecars,
and leaves the successfully extracted files on disk. The result is the
full post-state: only `dirs` (the created output directory) and `files`
(the successful extractions) change. -/
theorem claim_C5 (env : SplitExt) (args : SplitArgs) (w : SplitWorld)
    (hsrc : w.sourceExists = true)
    (hcs : find_chapters w.fs ≠ [])
    (hrev : args.review = false)
    (hprobe : splitCacheProbe
      { w with dirs := splitOutDir env args :: w.dirs } = none)
    (hfail : ∃ ch ∈ find_chapters w.fs, env.ffmpegOk ch = false)
    (hok1 : ∃ ch ∈ find_chapters w.fs, env.ffmpegOk ch = true) :
    splitRun env args w =
      (.failedTracks (((find_chapters w.fs).filter
          fun ch => !env.ffmpegOk ch).map Chapter.title),
       find_chapters w.fs,
       { w with
         dirs := splitOutDir env args :: w.dirs
         files := w.files ++ ((find_chapters w.fs).filter env.ffmpegOk).map
           (trackFileName env (splitOutDir env args)) }) := by
  have hcsE : (find_chapters w.fs).isEmpty = false := by
    cases h : find_chapters w.fs
    · exact absurd h hcs
    · rfl
  have hfailE : (((find_chapters w.fs).filter
      fun ch => !env.ffmpegOk ch).map Chapter.title).isEmpty = false := by
    obtain ⟨ch, hmem, hno⟩ := hfail
    have : ch ∈ (find_chapters w.fs).filter fun ch => !env.ffmpegOk ch :=
      List.mem_filter.mpr ⟨hmem, by rw [hno]; rfl⟩
    cases h : (find_chapters w.fs).filter fun ch => !env.ffmpegOk ch
    · rw [h] at this; simp at this
    · rfl
  have hprobe' := hprobe
  rw [hsrc] at hprobe'
  simp [splitRun, hsrc, hrev, hcsE, hfailE, hprobe']

/-- Environment of the C5 witness: chapters B and D fail extraction. -/
def wEnv5 : SplitExt :=
  { editResult := none
    ffmpegOk := fun ch => !(ch.title == "B") && !(ch.title == "D")
    parentSplits := "splits"
    albumSlug := "album"
    safeName := fun t => t }

def wArgs5 : SplitArgs := { review := false, keepSource := false, output := some "out5" }

def wWorld5 : SplitWorld :=
  { sourceExists := true
    sourceContent := "AUDIO5"
    fs := ⟨some "0:00 A\n0:01 B\n0:02 C\n0:03 D\n0:04 E\n", none⟩
    cache := []
    dirs := []
    files := [] }

/-- Witness for C5: two of five chapters fail; exactly their titles are
reported, the cache stays empty, the source file and sidecar survive,
and the three successful extractions are on disk. -/
theorem claim_C5_witness :
    (splitRun wEnv5 wArgs5 wWorld5).1 = .failedTracks ["B", "D"] ∧
    (splitRun wEnv5 wArgs5 wWorld5).2.2.cache = [] ∧
    (splitRun wEnv5 wArgs5 wWorld5).2.2.sourceExists = true ∧
    (splitRun wEnv5 wArgs5 wWorld5).2.2.fs.txt =
      some "0:00 A\n0:01 B\n0:02 C\n0:03 D\n0:04 E\n" ∧
    (splitRun wEnv5 wArgs5 wWorld5).2.2.files =
      ["out5/01-A.flac", "out5/03-C.flac", "out5/05-E.flac"] := by
  rw [claim_C5 wEnv5 wArgs5 wWorld5 rfl (by decide) rfl (by decide)
    ⟨⟨2, 1, some 2, "B"⟩, by decide, by decide⟩
    ⟨⟨1, 0, some 1, "A"⟩, by decide, by decide⟩]
  decide

/-! ## Claim C4 — split idempotence via the cache -/

/-- Environment of the C4 counterexample (defaults: no `keep_source`). -/
def cEnv4 : SplitExt :=
  { editResult := none
    ffmpegOk := fun _ => true
    parentSplits := "splits"
    albumSlug := "album"
    safeName := fun t => t }

def cArgs4 : SplitArgs := { review := false, keepSource := false, output := some "out4" }

def cWorld4 : SplitWorld :=
  { sourceExists := true
    sourceContent := "AUDIO4"
    fs := ⟨some "0:00 A\n", none⟩
    cache := []
    dirs := []
    files := [] }

/-- C4 fails as stated: with the default `keep_source = False` the first
successful run deletes the source file and its sidecars, so the second
run on the unmodified remaining state exits `File not found` — it never
computes the fingerprint, finds no cache entry and reports failure, not
cached success. -/
theorem claim_C4_counterexample :
    (splitRun cEnv4 cArgs4 cWorld4).1 = .success "out4" ∧
    (splitRun cEnv4 cArgs4 (splitRun cEnv4 cArgs4 cWorld4).2.2).1 =
      .fileNotFound ∧
    (splitRun cEnv4 cArgs4 (splitRun cEnv4 cArgs4 cWorld4).2.2).2.1 = [] := by
  decide

/-- Helper: a run whose cache probe hits short-circuits with the cached
directory and dispatches no extraction jobs. -/
theorem splitRun_cached (env : SplitExt) (args : SplitArgs) (w : SplitWorld)
    (hsrc : w.sourceExists = true)
    (hcs : (find_chapters w.fs).isEmpty = false)
    (hrev : args.review = false)
    (hhit : splitCacheProbe
      { w with dirs := splitOutDir env args :: w.dirs } =
      some (splitOutDir env args)) :
    (splitRun env args w).1 = .cachedHit (splitOutDir env args) ∧
    (splitRun env args w).2.1 = [] := by
  have hhit2 := hhit
  rw [hsrc] at hhit2
  simp [splitRun, hsrc, hrev, hcs, hhit2]

/-- C4 (amended): with `keep_source` (so the first run retains the audio
file and sidecar), running split twice on unmodified inputs performs the
per-chapter extractions only during the first run: the second run
computes the same fingerprint, finds the cache entry, sees its recorded
output directory on disk, and short-circuits with success, dispatching
no extraction jobs. -/
theorem claim_C4_amended (env : SplitExt) (args : SplitArgs) (w : SplitWorld)
    (txt : String)
    (htxt : w.fs.txt = some txt) (hsz : txt ≠ "")
    (hsrc : w.sourceExists = true)
    (hcs : chaptersTxt txt ≠ [])
    (hrev : args.review = false)
    (hkeep : args.keepSource = true)
    (hprobe : splitCacheProbe
      { w with dirs := splitOutDir env args :: w.dirs } = none)
    (hok : ∀ ch ∈ chaptersTxt txt, env.ffmpegOk ch = true)
    (hod : pyStripStr (splitOutDir env args) = splitOutDir env args) :
    (splitRun env args w).1 = .success (splitOutDir env args) ∧
    (splitRun env args w).2.1 = chaptersTxt txt ∧
    (splitRun env args w).2.2.sourceContent = w.sourceContent ∧
    (splitRun env args w).2.2.fs.txt = some txt ∧
    (splitRun env args (splitRun env args w).2.2).1 =
      .cachedHit (splitOutDir env args) ∧
    (splitRun env args (splitRun env args w).2.2).2.1 = [] := by
  have hfc : find_chapters w.fs = chaptersTxt txt := find_chapters_txt htxt hsz
  have hcsE : (find_chapters w.fs).isEmpty = false := by
    rw [hfc]
    cases h : chaptersTxt txt
    · exact absurd h hcs
    · rfl
  have hfailE : ((find_chapters w.fs).filter fun ch => !env.ffmpegOk ch) = [] := by
    rw [hfc, List.filter_eq_nil]
    intro ch hmem
    rw [hok ch hmem]
    simp
  have hokF : (find_chapters w.fs).filter env.ffmpegOk = find_chapters w.fs := by
    rw [hfc, List.filter_eq_self]
    intro ch hmem
    exact hok ch hmem
  have hprobe' := hprobe
  rw [hsrc] at hprobe'
  have hrun1 : splitRun env args w =
      (.success (splitOutDir env args), chaptersTxt txt,
       { w with
         dirs := splitOutDir env args :: w.dirs
         files := w.files ++ (chaptersTxt txt).map
           (trackFileName env (splitOutDir env args))
         cache := assocSet w.cache (split_cache_key w.sourceContent txt)
           (splitOutDir env args) }) := by
    simp only [splitRun, hsrc, hrev, hcsE, hfailE, hprobe', hfc, hkeep, htxt,
      hokF, Bool.false_eq_true, if_false, ite_false, List.isEmpty_nil,
      ite_true, if_true]
    simp
    rw [if_neg hcs,
      if_neg (show ¬∃ x ∈ chaptersTxt txt, env.ffmpegOk x = false from by
        rintro ⟨x, hx, hfalse⟩
        rw [hok x hx] at hfalse
        exact absurd hfalse (by decide)),
      show List.filter env.ffmpegOk (chaptersTxt txt) = chaptersTxt txt from
        List.filter_eq_self.mpr hok]
  rw [hrun1]
  set W1 : SplitWorld := { w with
    dirs := splitOutDir env args :: w.dirs
    files := w.files ++ (chaptersTxt txt).map
      (trackFileName env (splitOutDir env args))
    cache := assocSet w.cache (split_cache_key w.sourceContent txt)
      (splitOutDir env args) } with hW1
  have hsrc1 : W1.sourceExists = true := hsrc
  have hcs1 : (find_chapters W1.fs).isEmpty = false := hcsE
  have htxt1 : W1.fs.txt = some txt := htxt
  have hhit : splitCacheProbe
      { W1 with dirs := splitOutDir env args :: W1.dirs } =
      some (splitOutDir env args) := by
    unfold splitCacheProbe
    rw [show ({ W1 with dirs := splitOutDir env args :: W1.dirs }
      : SplitWorld).fs.txt = some txt from htxt1]
    rw [show ({ W1 with dirs := splitOutDir env args :: W1.dirs }
      : SplitWorld).sourceContent = w.sourceContent from rfl]
    rw [show ({ W1 with dirs := splitOutDir env args :: W1.dirs }
      : SplitWorld).cache = assocSet w.cache
        (split_cache_key w.sourceContent txt) (splitOutDir env args) from rfl]
    simp only [assocSet, List.lookup, beq_self_eq_true, if_true, ite_true]
    rw [hod]
    simp [show ({ W1 with dirs := splitOutDir env args :: W1.dirs }
      : SplitWorld).dirs = splitOutDir env args ::
        (splitOutDir env args :: w.dirs) from rfl]
  have h2 := splitRun_cached env args W1 hsrc1 hcs1 hrev hhit
  exact ⟨rfl, rfl, rfl, htxt, h2.1, h2.2⟩

def wArgs4 : SplitArgs := { review := false, keepSource := true, output := some "out4w" }

def wWorld4 : SplitWorld :=
  { sourceExists := true
    sourceContent := "AUDIO4W"
    fs := ⟨some "0:00 A\n", none⟩
    cache := []
    dirs := []
    files := [] }

/-- Witness for C4 (amended): with `--keep-source`, the second run is a
cache hit with no extraction dispatched. -/
theorem claim_C4_amended_witness :
    (splitRun cEnv4 wArgs4 wWorld4).1 = .success "out4w" ∧
    (splitRun cEnv4 wArgs4 (splitRun cEnv4 wArgs4 wWorld4).2.2).1 =
      .cachedHit "out4w" ∧
    (splitRun cEnv4 wArgs4 (splitRun cEnv4 wArgs4 wWorld4).2.2).2.1 = [] := by
  have h := claim_C4_amended cEnv4 wArgs4 wWorld4 "0:00 A\n" rfl (by decide)
    rfl (by decide) rfl rfl (by decide) (by decide) (by decide)
  exact ⟨h.1, h.2.2.2.2.1, h.2.2.2.2.2⟩

/-! ## The playlist state machine (`workflow_cmd`, per-item loop)

Model of one iteration of the per-video loop of `workflow_cmd`
(lines 267-413 of `src/muzik/commands/workflow.py`) for an item already
tracked in the persisted playlist state (the backfill for untracked
items, lines 275-289, is outside the claims, which quantify over
tracked items). `writes` records the per-item entry at each
`_save_playlist_state` call, in order; the write to the separate
per-video text cache (line 350) is not part of the playlist state. -/

inductive Status where
  | downloaded
  | split
  | organized
deriving DecidableEq

/-- Progress order of the statuses. -/
def Status.rank : Status → Nat
  | .downloaded => 1
  | .split => 2
  | .organized => 3

/-- One tracked per-item record of the persisted playlist state. -/
structure ItemEntry where
  status : Status
  audioFile : Option String
  splitDir : Option String
deriving DecidableEq

/-- External world of one iteration: filesystem checks, tool outcomes,
and the chapter resolution for any audio file. `stem`, path joins and
the interactive parts of `_get_chapters_for` are abstracted into
functions of the path. -/
structure WfEnv where
  pathExists : String → Bool
  downloadOk : Bool
  newAudio : List String
  byId : List String
  chaptersFor : String → List Chapter
  splitFails : Bool
  outDirExists : String → Bool
  organizeOk : String → Bool
  noOrganize : Bool
  splitsDir : String
  stem : String → String

inductive StepOutcome where
  | skippedOrganized
  | abortedDownload
  | noAudioFound
  | abortedSplit
  | abortedOrganize
  | done
deriving DecidableEq

structure StepResult where
  writes : List ItemEntry
  outcome : StepOutcome
  downloadInvoked : Bool
  splitInvoked : Bool
  organizeInvoked : Bool
deriving DecidableEq

/-- Lines 397-413: organize a split directory; on success the tracked
entry's status becomes `organized` and is saved; on failure the loop
moves on with no write. -/
def organizeDirPhase (env : WfEnv) (cur : ItemEntry) (sd : String)
    (writes : List ItemEntry) (dl sp : Bool) : StepResult :=
  if env.noOrganize then ⟨writes, .done, dl, sp, false⟩
  else if env.organizeOk sd then
    ⟨writes ++ [{ cur with status := .organized }], .done, dl, sp, true⟩
  else ⟨writes, .abortedOrganize, dl, sp, true⟩

/-- Lines 377-395: the single-track path (no chapters, or no split
directory after the split attempt). -/
def organizeSinglePhase (env : WfEnv) (cur : ItemEntry) (af : String)
    (writes : List ItemEntry) (dl sp : Bool) : StepResult :=
  if env.noOrganize then ⟨writes, .done, dl, sp, false⟩
  else if env.organizeOk af then
    ⟨writes ++ [{ cur with status := .organized }], .done, dl, sp, true⟩
  else ⟨writes, .abortedOrganize, dl, sp, true⟩

/-- Lines 352-413 once an audio file `af` is at hand: classify, split,
record `split`, and organize. -/
def splitPhase (env : WfEnv) (cur : ItemEntry) (af : String)
    (writes : List ItemEntry) (dl : Bool) : StepResult :=
  if (env.chaptersFor af).isEmpty then
    organizeSinglePhase env cur af writes dl false
  else
    if env.splitFails then ⟨writes, .abortedSplit, dl, true, false⟩
    else
      if env.outDirExists (env.splitsDir ++ "/" ++ env.stem af) then
        organizeDirPhase env
          { cur with
            status := .split
            splitDir := some (env.splitsDir ++ "/" ++ env.stem af) }
          (env.splitsDir ++ "/" ++ env.stem af)
          (writes ++ [{ cur with
            status := .split
            splitDir := some (env.splitsDir ++ "/" ++ env.stem af) }])
          dl true
      else organizeSinglePhase env cur af writes dl true

/-- Lines 305-351: resume from a `downloaded` entry whose audio file
still exists, else download afresh; a fresh download replaces the
tracked entry with `{status: downloaded, audio_file}` and saves it.
(A tracked `downloaded` entry always carries `audio_file`; the
`entry["audio_file"]` `KeyError` path cannot arise for entries this
code writes.) -/
def downloadPhase (env : WfEnv) (e : ItemEntry) : StepResult :=
  match
    (if e.status = .downloaded then
      match e.audioFile with
      | some c => if env.pathExists c then some c else none
      | none => none
    else none) with
  | some af => splitPhase env e af [] false
  | none =>
    if env.downloadOk = false then ⟨[], .abortedDownload, true, false, false⟩
    else
      match (if env.newAudio.isEmpty then env.byId else env.newAudio) with
      | [] => ⟨[], .noAudioFound, true, false, false⟩
      | af :: _ =>
        splitPhase env
          { status := .downloaded, audioFile := some af, splitDir := none }
          af [{ status := .downloaded, audioFile := some af, splitDir := none }]
          true

/-- One iteration of the per-video loop for a tracked item: an
`organized` item is skipped outright (line 291); a `split` item whose
recorded directory exists goes straight to the tagger (lines 299-303,
397-413); everything else goes through the download phase. -/
def workflow_item_step (env : WfEnv) (e : ItemEntry) : StepResult :=
  if e.status = .organized then ⟨[], .skippedOrganized, false, false, false⟩
  else if e.status = .split ∧ env.pathExists (e.splitDir.getD "") then
    organizeDirPhase env e (e.splitDir.getD "") [] false false
  else downloadPhase env e

/-! ## Claim C1 — status monotonicity -/

/-- Environment of the C1 counterexample: the recorded split directory
has been deleted, the re-download succeeds, the file has no chapters,
and the tagger succeeds. -/
def cEnvC1 : WfEnv :=
  { pathExists := fun _ => false
    downloadOk := true
    newAudio := ["f.flac"]
    byId := []
    chaptersFor := fun _ => []
    splitFails := false
    outDirExists := fun _ => false
    organizeOk := fun _ => true
    noOrganize := false
    splitsDir := "splits"
    stem := fun s => s }

def cEntryC1 : ItemEntry :=
  { status := .split, audioFile := some "a.flac", splitDir := some "gone" }

/-- C1 fails as stated: an item recorded `split` whose split directory
no longer exists is re-downloaded, and the run first persists its
status as `downloaded` — a regression from `split` — before advancing
again. -/
theorem claim_C1_counterexample :
    (workflow_item_step cEnvC1 cEntryC1).writes.map ItemEntry.status =
      [.downloaded, .organized] ∧
    cEntryC1.status = .split ∧
    Status.rank .downloaded < Status.rank .split := by
  decide

/-- C1 (amended): for a tracked item whose recorded artifact is intact
(for a `split` item, the recorded split directory still exists on
disk), every state write of a run has a status at least as advanced as
the recorded one; and an item recorded `organized` is skipped entirely
— no write, no download, no split, no tagger call. When the recorded
split directory is missing, the run may first rewrite the status to
`downloaded` (the counterexample) before re-advancing. -/
theorem claim_C1_amended (env : WfEnv) (e : ItemEntry)
    (hintact : e.status = .split → env.pathExists (e.splitDir.getD "") = true) :
    (∀ w ∈ (workflow_item_step env e).writes, e.status.rank ≤ w.status.rank) ∧
    (e.status = .organized →
      workflow_item_step env e = ⟨[], .skippedOrganized, false, false, false⟩) := by
  constructor
  · intro w hw
    cases hst : e.status with
    | organized =>
      rw [workflow_item_step, if_pos hst] at hw
      simp at hw
    | split =>
      have hpe : env.pathExists (e.splitDir.getD "") = true := hintact hst
      rw [workflow_item_step, if_neg (by rw [hst]; simp),
        if_pos ⟨hst, hpe⟩] at hw
      rw [organizeDirPhase] at hw
      split at hw
      · simp at hw
      · split at hw
        · simp at hw
          rw [hw]
          simp [Status.rank]
        · simp at hw
    | downloaded =>
      have : 1 ≤ w.status.rank := by
        cases w.status <;> simp [Status.rank]
      exact this
  · intro h
    rw [workflow_item_step, if_pos h]

/-- Environment of the C1 (amended) witness: a `split` item whose
directory exists is organized directly. -/
def wEnvC1 : WfEnv :=
  { pathExists := fun _ => true
    downloadOk := true
    newAudio := []
    byId := []
    chaptersFor := fun _ => []
    splitFails := false
    outDirExists := fun _ => false
    organizeOk := fun _ => true
    noOrganize := false
    splitsDir := "splits"
    stem := fun s => s }

def wEntryC1 : ItemEntry :=
  { status := .split, audioFile := some "a", splitDir := some "sd" }

/-- Witness for C1 (amended) at a concrete intact `split` entry. -/
theorem claim_C1_amended_witness :
    (∀ w ∈ (workflow_item_step wEnvC1 wEntryC1).writes,
      wEntryC1.status.rank ≤ w.status.rank) ∧
    (wEntryC1.status = .organized →
      workflow_item_step wEnvC1 wEntryC1 =
        ⟨[], .skippedOrganized, false, false, false⟩) :=
  claim_C1_amended wEnvC1 wEntryC1 (fun _ => rfl)
